import Mathlib

/-!
# CoreAudioDebugging: a shallow embedding of `CoreAudioDebugging.cpp`

The C++ translation unit renders two CoreAudio records as text:

* `AudioStreamBasicDescription` through `StreamDescription::ToString`,
* `AudioComponentDescription` through `StringFromAudioComponentDescription`,

both built on `FourCC`, `ToHex` and `OSTypeToString`.

Conventions of the embedding:

* `UInt32` values are natural numbers below `2 ^ 32`; every operation that can
  leave that range in C++ carries its reduction explicitly (`wrap32`), and the
  conversion `UInt32 → int` is `toInt32`.
* A `std::stringstream` is the `String` of what has been inserted so far; `<<`
  is `++`.
* An integer division is evaluated by `udiv`, which has no result on a zero
  divisor; functions that divide therefore return an `Option`.
* The rendering of the `Float64` sample rate is not interpreted: the descriptor
  carries the raw 64-bit pattern and the text comes from a parameter.
-/

namespace CoreAudioDebugging

/-! ## Machine integers -/

/-- Reduction of a natural number to the range of `UInt32`. -/
def wrap32 (n : Nat) : Nat := n % 4294967296

/-- The value an `int` takes when it is initialised from a `UInt32`
(two's complement, as on every platform the file targets). -/
def toInt32 (n : Nat) : Int :=
  if wrap32 n < 2147483648 then (wrap32 n : Int) else (wrap32 n : Int) - 4294967296

/-- The `UInt32` an `int` converts to in mixed `UInt32`/`int` arithmetic. -/
def ofInt32 (i : Int) : Nat := (i % 4294967296).toNat

/-- Subtraction of `UInt32` operands: `a - b` on `unsigned int`. -/
def usub32 (a b : Nat) : Nat := wrap32 (wrap32 a + 4294967296 - wrap32 b)

/-- Integer division of `UInt32` operands; a zero divisor has no result. -/
def udiv (a b : Nat) : Option Nat := if b = 0 then none else some (a / b)

/-- A `UInt32` used as a condition: true when it is not zero. -/
def truthy (n : Nat) : Bool := decide (n ≠ 0)

/-- A four-byte multi-character literal such as `'lpcm'`: the first character
is the most significant byte. -/
def fourcc (s : String) : Nat := s.data.foldl (fun acc c => acc * 256 + c.toNat) 0

/-! ## Stream insertion of numbers -/

/-- Insertion of an unsigned integer into a stream in its default (decimal) state. -/
def showUnsigned (n : Nat) : String := Nat.repr n

/-- Insertion of an `int` into a stream in its default (decimal) state. -/
def showInt (i : Int) : String :=
  match i with
  | Int.ofNat n => Nat.repr n
  | Int.negSucc n => "-" ++ Nat.repr (n + 1)

/-- One digit of an `uppercase` hexadecimal insertion. -/
def hexDigitUpper (d : Nat) : Char := "0123456789ABCDEF".data.getD d '?'

/-- The digits of `v` in base 16, most significant first, without leading
zeros and at least one digit long, put in front of `acc`. -/
def hexDigitsCore : Nat → Nat → List Char → List Char
  | 0, _, acc => acc
  | fuel + 1, v, acc =>
    if v / 16 = 0 then hexDigitUpper (v % 16) :: acc
    else hexDigitsCore fuel (v / 16) (hexDigitUpper (v % 16) :: acc)

/-- What `stream << hex << uppercase << v` inserts when no width is set. -/
def hexDigits (v : Nat) : List Char := hexDigitsCore (v + 1) v []

/-- The effect of `setfill(c) << setw(w)` on the next insertion: fill
characters on the left up to the width, never a truncation. -/
def padLeft (w : Nat) (c : Char) (ds : List Char) : List Char :=
  List.replicate (w - ds.length) c ++ ds

/-- `ToHex<T>(value)`: `"0x"`, then `value` in uppercase hexadecimal, zero-filled
to `2 * sizeof(T)` digits. -/
def ToHex (sizeofT : Nat) (value : Nat) : String :=
  "0x" ++ String.mk (padLeft (2 * sizeofT) '0' (hexDigits value))

/-! ## `FourCC` -/

/-- Modelled from the spec: `isprint` of the C library (declared in a system
header), in the "C" locale: the printable characters are exactly `0x20 .. 0x7E`;
`c` is the byte read through `char`. -/
def isprint (c : Nat) : Bool := decide (0x20 ≤ c ∧ c ≤ 0x7E)

/-- Modelled from the spec: `CFSwapInt32HostToBig` (CoreFoundation) followed by
the read of `bige.prnt[i]` through the union: byte `i` of the code in
big-endian order, whatever the host byte order. -/
def bigePrnt (code : Nat) (i : Nat) : Nat := code / 256 ^ (3 - i) % 256

/-- The `FourCC` structure: the code, the four overlaid bytes, the text. -/
structure FourCC where
  code : Nat
  prnt : List Nat
  repr : String

/-- The constructor `FourCC::FourCC(UInt32 _code)`. -/
def FourCC.new (_code : Nat) : FourCC :=
  let prnt := (List.range 4).map (bigePrnt _code)
  if prnt.any (fun b => !isprint b) then
    { code := _code, prnt := prnt, repr := ToHex 4 _code }
  else
    { code := _code, prnt := prnt,
      repr := "'" ++ String.mk (prnt.map Char.ofNat) ++ "'" }

/-! ## The name tables -/

/-- A 32-bit code (`OSType`). -/
abbrev OSType := Nat

/-- The type `map< OSType, char const * >`: the entries in increasing key order. -/
abbrev OSTypeToStringMap := List (OSType × String)

/-- The member `find`: the mapped label, or nothing for `end()`. -/
def OSTypeToStringMap.find : OSTypeToStringMap → OSType → Option String
  | [], _ => none
  | (k, v) :: rest, type => if k = type then some v else OSTypeToStringMap.find rest type

/-- The statement `typemap[key] = label`: the entry is created at its place in
key order, or its label is replaced when the key is already present. -/
def OSTypeToStringMap.assign : OSTypeToStringMap → OSType → String → OSTypeToStringMap
  | [], key, label => [(key, label)]
  | (k, v) :: rest, key, label =>
    if k = key then (key, label) :: rest
    else if key < k then (key, label) :: (k, v) :: rest
    else (k, v) :: OSTypeToStringMap.assign rest key label

/-- A run of assignments to one table, in source order. -/
def assignAll (typemap : OSTypeToStringMap) (stmts : List (OSType × String)) :
    OSTypeToStringMap :=
  stmts.foldl (fun m s => m.assign s.1 s.2) typemap

/-- The four file-scope tables. -/
structure OSTypeMaps where
  kAudioUnitManufacturer : OSTypeToStringMap
  kAudioUnitType : OSTypeToStringMap
  kAudioUnitSubType : OSTypeToStringMap
  kAudioFormat : OSTypeToStringMap

/-- The assignments `SetupOSTypeMaps` makes to `kAudioUnitManufacturer`. -/
def manufacturerStmts : List (OSType × String) :=
  [(fourcc "appl", "Apple")]

/-- The assignments `SetupOSTypeMaps` makes to `kAudioUnitType`, in source order. -/
def unitTypeStmts : List (OSType × String) :=
  [(fourcc "auou", "Output"), (fourcc "aumu", "MusicDevice"),
   (fourcc "aumf", "MusicEffect"), (fourcc "aufc", "FormatConverter"),
   (fourcc "aufx", "Effect"), (fourcc "aumx", "Mixer"), (fourcc "aupn", "Panner"),
   (fourcc "auol", "OfflineEffect"), (fourcc "augn", "Generator"),
   (fourcc "auou", "Output"), (fourcc "aumu", "MusicDevice"),
   (fourcc "aumf", "MusicEffect"), (fourcc "aufc", "FormatConverter"),
   (fourcc "aufx", "Effect"), (fourcc "aumx", "Mixer"), (fourcc "aupn", "Panner"),
   (fourcc "augn", "Generator"), (fourcc "auol", "OfflineEffect"),
   (fourcc "aumi", "MIDIProcessor"), (fourcc "aurx", "RemoteEffect"),
   (fourcc "aurg", "RemoteGenerator"), (fourcc "auri", "RemoteInstrument"),
   (fourcc "aurm", "RemoteMusicEffect")]

/-- The assignments `SetupOSTypeMaps` makes to `kAudioUnitSubType`, in source order. -/
def unitSubTypeStmts : List (OSType × String) :=
  [(fourcc "genr", "GenericOutput"), (fourcc "ahal", "HALOutput"),
   (fourcc "def ", "DefaultOutput"), (fourcc "sys ", "SystemOutput"),
   (fourcc "rioc", "RemoteIO"), (fourcc "vpio", "VoiceProcessingIO"),
   (fourcc "dls ", "DLSSynth"), (fourcc "samp", "Sampler"),
   (fourcc "conv", "AUConverter"), (fourcc "vari", "Varispeed"),
   (fourcc "defr", "DeferredRenderer"), (fourcc "splt", "Splitter"),
   (fourcc "merg", "Merger"), (fourcc "nutp", "NewTimePitch"),
   (fourcc "ipto", "AUiPodTimeOther"), (fourcc "tmpt", "TimePitch"),
   (fourcc "raac", "RoundTripAAC"), (fourcc "iptm", "AUiPodTime"),
   (fourcc "lmtr", "PeakLimiter"), (fourcc "dcmp", "DynamicsProcessor"),
   (fourcc "lpas", "LowPassFilter"), (fourcc "hpas", "HighPassFilter"),
   (fourcc "bpas", "BandPassFilter"), (fourcc "hshf", "HighShelfFilter"),
   (fourcc "lshf", "LowShelfFilter"), (fourcc "pmeq", "ParametricEQ"),
   (fourcc "dist", "Distortion"), (fourcc "dely", "Delay"),
   (fourcc "greq", "GraphicEQ"), (fourcc "mcmp", "MultiBandCompressor"),
   (fourcc "mrev", "MatrixReverb"), (fourcc "tmpt", "Pitch"),
   (fourcc "filt", "AUFilter"), (fourcc "nsnd", "NetSend"),
   (fourcc "sdly", "SampleDelay"), (fourcc "rogr", "RogerBeep"),
   (fourcc "rvb2", "Reverb2"), (fourcc "ipeq", "AUiPodEQ"),
   (fourcc "nbeq", "NBandEQ"), (fourcc "mcmx", "MultiChannelMixer"),
   (fourcc "mxmx", "MatrixMixer"), (fourcc "smxr", "StereoMixer"),
   (fourcc "3dmx", "3DMixer"), (fourcc "3dem", "AU3DMixerEmbedded"),
   (fourcc "sphr", "SphericalHeadPanner"), (fourcc "vbas", "VectorPanner"),
   (fourcc "ambi", "SoundFieldPanner"), (fourcc "hrtf", "HRTFPanner"),
   (fourcc "nrcv", "NetReceive"), (fourcc "sspl", "ScheduledSoundPlayer"),
   (fourcc "afpl", "AudioFilePlayer")]

/-- The assignments `SetupOSTypeMaps` makes to `kAudioFormat`, in source order. -/
def formatStmts : List (OSType × String) :=
  [(fourcc "lpcm", "LinearPCM"), (fourcc "ac-3", "AC3"), (fourcc "cac3", "60958AC3"),
   (fourcc "ima4", "AppleIMA4"), (fourcc "aac ", "MPEG4AAC"),
   (fourcc "celp", "MPEG4CELP"), (fourcc "hvxc", "MPEG4HVXC"),
   (fourcc "twvq", "MPEG4TwinVQ"), (fourcc "MAC3", "MACE3"), (fourcc "MAC6", "MACE6"),
   (fourcc "ulaw", "ULaw"), (fourcc "alaw", "ALaw"), (fourcc "QDMC", "QDesign"),
   (fourcc "QDM2", "QDesign2"), (fourcc "Qclp", "QUALCOMM"),
   (fourcc ".mp1", "MPEGLayer1"), (fourcc ".mp2", "MPEGLayer2"),
   (fourcc ".mp3", "MPEGLayer3"), (fourcc "time", "TimeCode"),
   (fourcc "midi", "MIDIStream"), (fourcc "apvs", "ParameterValueStream"),
   (fourcc "alac", "AppleLossless"), (fourcc "aach", "MPEG4AAC_HE"),
   (fourcc "aacl", "MPEG4AAC_LD"), (fourcc "aace", "MPEG4AAC_ELD"),
   (fourcc "aacf", "MPEG4AAC_ELD_SBR"), (fourcc "aacg", "MPEG4AAC_ELD_V2"),
   (fourcc "aacp", "MPEG4AAC_HE_V2"), (fourcc "aacs", "MPEG4AAC_Spatial"),
   (fourcc "samr", "AMR"), (fourcc "AUDB", "Audible"), (fourcc "ilbc", "iLBC"),
   (0x6D730011, "DVIIntelIMA"), (0x6D730031, "MicrosoftGSM"),
   (fourcc "aes3", "AES3")]

/-- The function `SetupOSTypeMaps`, run on the four empty tables. -/
def SetupOSTypeMaps : OSTypeMaps :=
  { kAudioUnitManufacturer := assignAll [] manufacturerStmts
    kAudioUnitType := assignAll [] unitTypeStmts
    kAudioUnitSubType := assignAll [] unitSubTypeStmts
    kAudioFormat := assignAll [] formatStmts }

/-- The table `kAudioUnitManufacturer` after set-up. -/
def kAudioUnitManufacturer : OSTypeToStringMap := SetupOSTypeMaps.kAudioUnitManufacturer

/-- The table `kAudioUnitType` after set-up. -/
def kAudioUnitType : OSTypeToStringMap := SetupOSTypeMaps.kAudioUnitType

/-- The table `kAudioUnitSubType` after set-up. -/
def kAudioUnitSubType : OSTypeToStringMap := SetupOSTypeMaps.kAudioUnitSubType

/-- The table `kAudioFormat` after set-up. -/
def kAudioFormat : OSTypeToStringMap := SetupOSTypeMaps.kAudioFormat

/-- The function `OSTypeToString`. -/
def OSTypeToString (type : OSType) (typemap : OSTypeToStringMap) : String :=
  match typemap.find type with
  | some label => label
  | none => (FourCC.new type).repr

/-! ## Constants of the CoreAudio headers -/

/-- Modelled from the spec: `kAudioFormatLinearPCM` of `CoreAudioTypes.h`, the
designated linear-PCM code `'lpcm'`. -/
def kAudioFormatLinearPCM : Nat := fourcc "lpcm"

/-- Modelled from the spec: `kAudioFormatAppleLossless` of `CoreAudioTypes.h`,
the designated Apple-Lossless code `'alac'`. -/
def kAudioFormatAppleLossless : Nat := fourcc "alac"

/-- Modelled from the spec: `kAudioFormatFlagIsFloat` of `CoreAudioTypes.h`,
the float flag bit `0x1`. -/
def kAudioFormatFlagIsFloat : Nat := 0x1

/-- Modelled from the spec: `kAudioFormatFlagIsBigEndian` of `CoreAudioTypes.h`,
the big-endian flag bit `0x2`. -/
def kAudioFormatFlagIsBigEndian : Nat := 0x2

/-- Modelled from the spec: `kAudioFormatFlagIsSignedInteger` of
`CoreAudioTypes.h`, the signed-integer flag bit `0x4`. -/
def kAudioFormatFlagIsSignedInteger : Nat := 0x4

/-- Modelled from the spec: `kAudioFormatFlagIsPacked` of `CoreAudioTypes.h`,
the packed flag bit `0x8`. -/
def kAudioFormatFlagIsPacked : Nat := 0x8

/-- Modelled from the spec: `kAudioFormatFlagIsAlignedHigh` of
`CoreAudioTypes.h`, the aligned-high flag bit `0x10`. -/
def kAudioFormatFlagIsAlignedHigh : Nat := 0x10

/-- Modelled from the spec: `kAudioFormatFlagIsNonInterleaved` of
`CoreAudioTypes.h`, the non-interleaved flag bit `0x20`. -/
def kAudioFormatFlagIsNonInterleaved : Nat := 0x20

/-- Modelled from the spec: `kLinearPCMFormatFlagIsFloat`, an alias of the
float flag bit. -/
def kLinearPCMFormatFlagIsFloat : Nat := kAudioFormatFlagIsFloat

/-- Modelled from the spec: `kLinearPCMFormatFlagIsBigEndian`, an alias of the
big-endian flag bit. -/
def kLinearPCMFormatFlagIsBigEndian : Nat := kAudioFormatFlagIsBigEndian

/-- Modelled from the spec: `kLinearPCMFormatFlagIsSignedInteger`, an alias of
the signed-integer flag bit. -/
def kLinearPCMFormatFlagIsSignedInteger : Nat := kAudioFormatFlagIsSignedInteger

/-- Modelled from the spec: `kLinearPCMFormatFlagIsPacked`, an alias of the
packed flag bit. -/
def kLinearPCMFormatFlagIsPacked : Nat := kAudioFormatFlagIsPacked

/-- Modelled from the spec: `kLinearPCMFormatFlagIsAlignedHigh`, an alias of
the aligned-high flag bit. -/
def kLinearPCMFormatFlagIsAlignedHigh : Nat := kAudioFormatFlagIsAlignedHigh

/-- Modelled from the spec: `kLinearPCMFormatFlagsSampleFractionShift` of
`CoreAudioTypes.h`, the shift `7` of the fraction sub-field. -/
def kLinearPCMFormatFlagsSampleFractionShift : Nat := 7

/-- Modelled from the spec: `kLinearPCMFormatFlagsSampleFractionMask` of
`CoreAudioTypes.h`, the mask `0x1F80` of the fraction sub-field. -/
def kLinearPCMFormatFlagsSampleFractionMask : Nat := 0x1F80

/-- Modelled from the spec: `kAppleLosslessFormatFlag_16BitSourceData` of
`CoreAudioTypes.h`, the 16-bit-source constant `1`. -/
def kAppleLosslessFormatFlag_16BitSourceData : Nat := 1

/-- Modelled from the spec: `kAppleLosslessFormatFlag_20BitSourceData` of
`CoreAudioTypes.h`, the 20-bit-source constant `2`. -/
def kAppleLosslessFormatFlag_20BitSourceData : Nat := 2

/-- Modelled from the spec: `kAppleLosslessFormatFlag_24BitSourceData` of
`CoreAudioTypes.h`, the 24-bit-source constant `3`. -/
def kAppleLosslessFormatFlag_24BitSourceData : Nat := 3

/-- Modelled from the spec: `kAppleLosslessFormatFlag_32BitSourceData` of
`CoreAudioTypes.h`, the 32-bit-source constant `4`. -/
def kAppleLosslessFormatFlag_32BitSourceData : Nat := 4

/-! ## `StreamDescription` -/

/-- Modelled from the spec: the record `AudioStreamBasicDescription` of
`CoreAudioTypes.h`. `mSampleRate` is the bit pattern of the `Float64`; the other
fields are `UInt32`. -/
structure AudioStreamBasicDescription where
  mSampleRate : Nat
  mFormatID : Nat
  mFormatFlags : Nat
  mBytesPerPacket : Nat
  mFramesPerPacket : Nat
  mBytesPerFrame : Nat
  mChannelsPerFrame : Nat
  mBitsPerChannel : Nat
  mReserved : Nat
deriving DecidableEq, Repr

/-- Every field is in the range of its C type. -/
def AudioStreamBasicDescription.WellFormed (asbd : AudioStreamBasicDescription) : Prop :=
  asbd.mSampleRate < 2 ^ 64 ∧ asbd.mFormatID < 2 ^ 32 ∧ asbd.mFormatFlags < 2 ^ 32 ∧
  asbd.mBytesPerPacket < 2 ^ 32 ∧ asbd.mFramesPerPacket < 2 ^ 32 ∧
  asbd.mBytesPerFrame < 2 ^ 32 ∧ asbd.mChannelsPerFrame < 2 ^ 32 ∧
  asbd.mBitsPerChannel < 2 ^ 32 ∧ asbd.mReserved < 2 ^ 32

instance (asbd : AudioStreamBasicDescription) : Decidable asbd.WellFormed := by
  unfold AudioStreamBasicDescription.WellFormed; infer_instance

/-- The structure `StreamDescription` adds no field to its base. -/
abbrev StreamDescription := AudioStreamBasicDescription

namespace StreamDescription

/-- The constructor `StreamDescription(const AudioStreamBasicDescription &)`. -/
def new (asbd : AudioStreamBasicDescription) : StreamDescription :=
  { mSampleRate := asbd.mSampleRate
    mFormatID := asbd.mFormatID
    mFormatFlags := asbd.mFormatFlags
    mBytesPerPacket := asbd.mBytesPerPacket
    mFramesPerPacket := asbd.mFramesPerPacket
    mBytesPerFrame := asbd.mBytesPerFrame
    mChannelsPerFrame := asbd.mChannelsPerFrame
    mBitsPerChannel := asbd.mBitsPerChannel
    mReserved := asbd.mReserved }

/-- The member `IsPCM`. -/
def IsPCM (d : StreamDescription) : Bool :=
  decide (d.mFormatID = kAudioFormatLinearPCM)

/-- The member `IsInterleaved`. -/
def IsInterleaved (d : StreamDescription) : Bool :=
  !d.IsPCM || !truthy (d.mFormatFlags &&& kAudioFormatFlagIsNonInterleaved)

/-- The member `NumberInterleavedChannels`. -/
def NumberInterleavedChannels (d : StreamDescription) : Nat :=
  if d.IsInterleaved then d.mChannelsPerFrame else 1

/-- The member `NumberChannelStreams`. -/
def NumberChannelStreams (d : StreamDescription) : Nat :=
  if d.IsInterleaved then 1 else d.mChannelsPerFrame

/-- The member `NumberChannels`. -/
def NumberChannels (d : StreamDescription) : Nat := d.mChannelsPerFrame

/-- The member `SampleWordSize`; the division is evaluated only in the branch
the condition selects. -/
def SampleWordSize (d : StreamDescription) : Option Nat :=
  if decide (d.mBytesPerFrame > 0) && truthy d.NumberInterleavedChannels then
    udiv d.mBytesPerFrame d.NumberInterleavedChannels
  else some 0

/-- The member `PackednessIsSignificant`. -/
def PackednessIsSignificant (d : StreamDescription) : Option Bool :=
  if d.IsPCM then do
    let ws ← d.SampleWordSize
    pure (decide (wrap32 (ws <<< 3) ≠ d.mBitsPerChannel))
  else pure false

/-- The member `AlignmentIsSignificant`. -/
def AlignmentIsSignificant (d : StreamDescription) : Option Bool := do
  let p ← d.PackednessIsSignificant
  if p then pure true else pure (decide (d.mBitsPerChannel &&& 7 ≠ 0))

/-- The member `IsSignedInteger`. -/
def IsSignedInteger (d : StreamDescription) : Bool :=
  d.IsPCM && truthy (d.mFormatFlags &&& kAudioFormatFlagIsSignedInteger)

/-- The member `IsFloat`. -/
def IsFloat (d : StreamDescription) : Bool :=
  d.IsPCM && truthy (d.mFormatFlags &&& kAudioFormatFlagIsFloat)

/-- The member `IsNativeEndian`; `kAudioFormatFlagsNativeEndian` is the constant
of the host (`0` on a little-endian host, the big-endian bit otherwise). -/
def IsNativeEndian (kAudioFormatFlagsNativeEndian : Nat) (d : StreamDescription) : Bool :=
  decide (d.mFormatFlags &&& kAudioFormatFlagIsBigEndian = kAudioFormatFlagsNativeEndian)

/-- The separator `eol` of `ToString`. -/
def eol : String := ", "

/-- The inner `switch (mFormatFlags)` of the Apple-Lossless case. -/
def losslessSourceBits (mFormatFlags : Nat) : String :=
  if mFormatFlags = kAppleLosslessFormatFlag_16BitSourceData then "16"
  else if mFormatFlags = kAppleLosslessFormatFlag_20BitSourceData then "20"
  else if mFormatFlags = kAppleLosslessFormatFlag_24BitSourceData then "24"
  else if mFormatFlags = kAppleLosslessFormatFlag_32BitSourceData then "32"
  else "??"

/-- The body of `case kAudioFormatLinearPCM` of `ToString`, continuing the
stream `out`. -/
def ToStringLinearPCM (d : StreamDescription) (out : String) : Option String := do
  let fracbits : Int :=
    toInt32 ((d.mFormatFlags &&& kLinearPCMFormatFlagsSampleFractionMask) >>>
      kLinearPCMFormatFlagsSampleFractionShift)
  let out :=
    if fracbits > 0 then
      out ++ showUnsigned (usub32 d.mBitsPerChannel (ofInt32 fracbits)) ++ "." ++ showInt fracbits
    else out ++ showUnsigned d.mBitsPerChannel
  let out := out ++ "-bit"
  let wordSize : Int := toInt32 (← d.SampleWordSize)
  let isInt : Bool := !truthy (d.mFormatFlags &&& kLinearPCMFormatFlagIsFloat)
  let out :=
    if wordSize > 1 then
      out ++ (if truthy (d.mFormatFlags &&& kLinearPCMFormatFlagIsBigEndian)
        then " big-endian" else " little-endian") ++ eol
    else out
  let out :=
    if isInt then
      out ++ (if truthy (d.mFormatFlags &&& kLinearPCMFormatFlagIsSignedInteger)
        then "signed" else "unsigned") ++ " integer"
    else out ++ "floating-point"
  let out := out ++ eol
  let packed ← if wordSize > 0 then d.PackednessIsSignificant else pure false
  let out :=
    if packed then
      (if !truthy (d.mFormatFlags &&& kLinearPCMFormatFlagIsPacked) then out ++ "un" else out)
        ++ "packed in " ++ showInt wordSize ++ " bytes"
    else out
  let aligned ← if wordSize > 0 then d.AlignmentIsSignificant else pure false
  let out :=
    if aligned then
      out ++ (if truthy (d.mFormatFlags &&& kLinearPCMFormatFlagIsAlignedHigh)
        then ", high-aligned" else ", low-aligned")
    else out
  let either ←
    if wordSize > 0 then do
      let p ← d.PackednessIsSignificant
      if p then pure true else d.AlignmentIsSignificant
    else pure false
  let out := if either then out ++ eol else out
  pure (out ++ (if truthy (d.mFormatFlags &&& kAudioFormatFlagIsNonInterleaved)
    then "non-interleaved" else "interleaved"))

/-- The member `ToString`. `showDouble` is the insertion of the `Float64`
sample rate into the stream, applied to its bit pattern. -/
def ToString (showDouble : Nat → String) (d : StreamDescription) : Option String :=
  let out := ""
  let out := out ++ showUnsigned d.mChannelsPerFrame ++ " Ch @ " ++ showDouble d.mSampleRate
    ++ " Hz" ++ eol
  let out := out ++ "Format: " ++ OSTypeToString d.mFormatID kAudioFormat ++ eol
  if d.mFormatID = kAudioFormatAppleLossless then
    let out := out ++ losslessSourceBits d.mFormatFlags
    let out := out ++ "-bit source data" ++ eol
    pure (out ++ showUnsigned d.mFramesPerPacket ++ "frames/packet")
  else if d.mFormatID = kAudioFormatLinearPCM then
    ToStringLinearPCM d out
  else
    let out := out ++ showUnsigned d.mBitsPerChannel ++ "bits/channel" ++ eol
    let out := out ++ showUnsigned d.mBytesPerPacket ++ "bytes/packet" ++ eol
    let out := out ++ showUnsigned d.mFramesPerPacket ++ "frames/packet" ++ eol
    pure (out ++ showUnsigned d.mBytesPerFrame ++ "bytes/frame")

end StreamDescription

/-- The exported `StringFromAudioStreamBasicDescription`: the text copied into
the returned buffer. -/
def StringFromAudioStreamBasicDescription (showDouble : Nat → String)
    (asbd : AudioStreamBasicDescription) : Option String :=
  (StreamDescription.new asbd).ToString showDouble

/-! ## `AudioComponentDescription` -/

/-- Modelled from the spec: the record `AudioComponentDescription` of
`AudioComponent.h`: three codes and two flag words, all `UInt32`. -/
structure AudioComponentDescription where
  componentType : Nat
  componentSubType : Nat
  componentManufacturer : Nat
  componentFlags : Nat
  componentFlagsMask : Nat
deriving DecidableEq, Repr

/-- The exported `StringFromAudioComponentDescription`: the text copied into
the returned buffer. -/
def StringFromAudioComponentDescription (acd : AudioComponentDescription)
    (includeFlags : Bool) : String :=
  let format := ""
  let format := format ++ "Manufacturer: " ++
    OSTypeToString acd.componentManufacturer kAudioUnitManufacturer ++ ", "
  let format := format ++ "Type: " ++ OSTypeToString acd.componentType kAudioUnitType ++ ", "
  let format := format ++ "SubType: " ++
    OSTypeToString acd.componentSubType kAudioUnitSubType
  if includeFlags then
    let format := format ++ ", "
    let format := format ++ "Flags: " ++ ToHex 4 acd.componentFlags ++ ", "
    format ++ "FlagsMask: " ++ ToHex 4 acd.componentFlagsMask
  else format

/-! ## Definitions used to state the properties -/

/-- The `k` low hexadecimal digits of `v`, most significant first. -/
def fixedHex : Nat → Nat → List Char
  | 0, _ => []
  | k + 1, v => fixedHex k (v / 16) ++ [hexDigitUpper (v % 16)]

/-- A byte is printable ASCII. -/
def printableAscii (b : Nat) : Prop := 0x20 ≤ b ∧ b ≤ 0x7E

instance (b : Nat) : Decidable (printableAscii b) := by
  unfold printableAscii; infer_instance

/-- The quoted form of a code with bytes `b0 b1 b2 b3` (most significant first). -/
def quotedForm (b0 b1 b2 b3 : Nat) : String :=
  "'" ++ String.mk [Char.ofNat b0, Char.ofNat b1, Char.ofNat b2, Char.ofNat b3] ++ "'"

/-- The hexadecimal form of a code: `0x` and eight uppercase digits. -/
def hexForm (c : Nat) : String :=
  "0x" ++ String.mk
    [hexDigitUpper (c / 16 ^ 7 % 16), hexDigitUpper (c / 16 ^ 6 % 16),
     hexDigitUpper (c / 16 ^ 5 % 16), hexDigitUpper (c / 16 ^ 4 % 16),
     hexDigitUpper (c / 16 ^ 3 % 16), hexDigitUpper (c / 16 ^ 2 % 16),
     hexDigitUpper (c / 16 ^ 1 % 16), hexDigitUpper (c % 16)]

/-- The keys of a table are strictly increasing. -/
def KeysSorted (m : OSTypeToStringMap) : Prop := (m.map Prod.fst).Pairwise (· < ·)

/-- The always-present prefix of a description: the channel count, the sample
rate text, and the `Format:` clause with its separator. -/
def formatHeader (showDouble : Nat → String) (d : StreamDescription) : String :=
  showUnsigned d.mChannelsPerFrame ++ " Ch @ " ++ showDouble d.mSampleRate ++ " Hz, " ++
    "Format: " ++ OSTypeToString d.mFormatID kAudioFormat ++ ", "

/-- The derived `interleavedChannelCount`: `channelsPerFrame` for an interleaved
descriptor (not linear PCM, or flag bit `0x20` clear), otherwise `1`. -/
def interleavedChannelCount (d : StreamDescription) : Nat :=
  if d.mFormatID ≠ kAudioFormatLinearPCM ∨ d.mFormatFlags.testBit 5 = false then
    d.mChannelsPerFrame
  else 1

/-- The derived `sampleWordSizeBytes`: `bytesPerFrame / interleavedChannelCount`
when both are positive, otherwise `0`. -/
def sampleWordSizeBytes (d : StreamDescription) : Nat :=
  if 0 < d.mBytesPerFrame ∧ 0 < interleavedChannelCount d then
    d.mBytesPerFrame / interleavedChannelCount d
  else 0

/-- The fraction sub-field of the flags: `(formatFlags AND 0x1F80) >> 7`. -/
def fractionBits (d : StreamDescription) : Nat := (d.mFormatFlags &&& 0x1F80) >>> 7

/-- The bit-depth text of a linear-PCM description, the integer part being the
unsigned 32-bit difference. -/
def bitDepthText (d : StreamDescription) : String :=
  if 0 < fractionBits d then
    showUnsigned ((d.mBitsPerChannel + 4294967296 - fractionBits d) % 4294967296) ++ "." ++
      showUnsigned (fractionBits d)
  else showUnsigned d.mBitsPerChannel

/-- The endianness clause, selected by flag bit `0x2`. -/
def endianClause (d : StreamDescription) : String :=
  if d.mFormatFlags.testBit 1 then " big-endian" else " little-endian"

/-- The sample-type clause, selected by flag bits `0x1` and `0x4`. -/
def sampleTypeClause (d : StreamDescription) : String :=
  if d.mFormatFlags.testBit 0 then "floating-point"
  else if d.mFormatFlags.testBit 2 then "signed integer" else "unsigned integer"

/-- The packed/unpacked clause with the word size, `un` for a clear bit `0x8`. -/
def packedClause (d : StreamDescription) : String :=
  (if d.mFormatFlags.testBit 3 then "" else "un") ++ "packed in " ++
    showUnsigned (sampleWordSizeBytes d) ++ " bytes"

/-- The alignment clause, selected by flag bit `0x10`. -/
def alignClause (d : StreamDescription) : String :=
  if d.mFormatFlags.testBit 4 then ", high-aligned" else ", low-aligned"

/-- The final clause, selected by flag bit `0x20`. -/
def interleaveClause (d : StreamDescription) : String :=
  if d.mFormatFlags.testBit 5 then "non-interleaved" else "interleaved"

/-- The packedness test on 32-bit arithmetic, as a proposition. -/
def packednessSignificant (d : StreamDescription) : Prop :=
  d.mFormatID = kAudioFormatLinearPCM ∧
    (sampleWordSizeBytes d * 8) % 4294967296 ≠ d.mBitsPerChannel

instance (d : StreamDescription) : Decidable (packednessSignificant d) := by
  unfold packednessSignificant; infer_instance

/-- The text after the `Format:` clause of a linear-PCM description, clause by
clause; the word size counts when it is positive as a signed 32-bit `int`. -/
def linearPCMText (d : StreamDescription) : String :=
  bitDepthText d ++ "-bit" ++
    (if 1 < sampleWordSizeBytes d ∧ sampleWordSizeBytes d < 2147483648
      then endianClause d ++ ", " else "") ++
    sampleTypeClause d ++ ", " ++
    (if 0 < sampleWordSizeBytes d ∧ sampleWordSizeBytes d < 2147483648 ∧
        packednessSignificant d
      then packedClause d ++ alignClause d ++ ", " else "") ++
    interleaveClause d

/-- A text occurs inside another. -/
def Contains (s p : String) : Prop := p.data <:+: s.data

instance (s p : String) : Decidable (Contains s p) := by
  unfold Contains; infer_instance

/-- A text begins with another. -/
def StartsWith (s p : String) : Prop := p.data <+: s.data

instance (s p : String) : Decidable (StartsWith s p) := by
  unfold StartsWith; infer_instance

/-- A text ends with another. -/
def EndsWith (s p : String) : Prop := p.data <:+ s.data

instance (s p : String) : Decidable (EndsWith s p) := by
  unfold EndsWith; infer_instance

/-- A piece of a rendered text: a fixed text or a decimal number. -/
inductive Seg where
  | lit (s : String)
  | num (n : Nat)

/-- The characters of a piece. -/
def Seg.render : Seg → List Char
  | Seg.lit s => s.data
  | Seg.num n => (Nat.repr n).data

/-- The characters of a sequence of pieces. -/
def renderSegs : List Seg → List Char
  | [] => []
  | s :: t => s.render ++ renderSegs t

/-- The maximal runs of fixed text of a sequence of pieces, `acc` being the run
in progress. -/
def litRunsAux (acc : List Char) : List Seg → List (List Char)
  | [] => [acc]
  | Seg.lit s :: t => litRunsAux (acc ++ s.data) t
  | Seg.num _ :: t => acc :: litRunsAux [] t

/-- No run of fixed text of the pieces contains the pattern. -/
def noRunContains (p : List Char) (t : List Seg) : Bool :=
  (litRunsAux [] t).all (fun r => !decide (p <:+: r))

/-- The pieces of the bit-depth text. -/
def depthSegs (d : StreamDescription) : List Seg :=
  if 0 < fractionBits d then
    [Seg.num ((d.mBitsPerChannel + 4294967296 - fractionBits d) % 4294967296), Seg.lit ".",
      Seg.num (fractionBits d)]
  else [Seg.num d.mBitsPerChannel]

/-- The pieces of `linearPCMText`. -/
def linearPCMSegs (d : StreamDescription) : List Seg :=
  depthSegs d ++ [Seg.lit "-bit"] ++
    (if 1 < sampleWordSizeBytes d ∧ sampleWordSizeBytes d < 2147483648
      then [Seg.lit (endianClause d), Seg.lit ", "] else []) ++
    [Seg.lit (sampleTypeClause d), Seg.lit ", "] ++
    (if 0 < sampleWordSizeBytes d ∧ sampleWordSizeBytes d < 2147483648 ∧
        packednessSignificant d
      then [Seg.lit (if d.mFormatFlags.testBit 3 then "" else "un"), Seg.lit "packed in ",
        Seg.num (sampleWordSizeBytes d), Seg.lit " bytes", Seg.lit (alignClause d),
        Seg.lit ", "] else []) ++
    [Seg.lit (interleaveClause d)]

/-- A linear-PCM descriptor with a word size of `2 ^ 31` bytes. -/
def wordSizeSignInput : StreamDescription :=
  { mSampleRate := 0, mFormatID := kAudioFormatLinearPCM, mFormatFlags := 0xC,
    mBytesPerPacket := 0x80000000, mFramesPerPacket := 1, mBytesPerFrame := 0x80000000,
    mChannelsPerFrame := 1, mBitsPerChannel := 16, mReserved := 0 }

/-- A linear-PCM float descriptor with a word size of `3 * 2 ^ 30` bytes. -/
def packedSignInput : StreamDescription :=
  { mSampleRate := 0, mFormatID := kAudioFormatLinearPCM, mFormatFlags := 0x9,
    mBytesPerPacket := 0xC0000000, mFramesPerPacket := 1, mBytesPerFrame := 0xC0000000,
    mChannelsPerFrame := 1, mBitsPerChannel := 24, mReserved := 0 }

/-- A linear-PCM descriptor whose word size times eight exceeds 32 bits. -/
def shiftOverflowInput : StreamDescription :=
  { mSampleRate := 0, mFormatID := kAudioFormatLinearPCM, mFormatFlags := 0xC,
    mBytesPerPacket := 0x20000002, mFramesPerPacket := 1, mBytesPerFrame := 0x20000002,
    mChannelsPerFrame := 1, mBitsPerChannel := 16, mReserved := 0 }

/-- A linear-PCM descriptor with 8 bits per channel and 12 fraction bits. -/
def fractionWrapInput : StreamDescription :=
  { mSampleRate := 0, mFormatID := kAudioFormatLinearPCM, mFormatFlags := 0x60C,
    mBytesPerPacket := 2, mFramesPerPacket := 1, mBytesPerFrame := 2,
    mChannelsPerFrame := 2, mBitsPerChannel := 8, mReserved := 0 }

/-- The 16-bit stereo interleaved descriptor of compact-disc audio. -/
def cdInput : StreamDescription :=
  { mSampleRate := 0, mFormatID := kAudioFormatLinearPCM, mFormatFlags := 0xC,
    mBytesPerPacket := 4, mFramesPerPacket := 1, mBytesPerFrame := 4,
    mChannelsPerFrame := 2, mBitsPerChannel := 16, mReserved := 0 }

/-- A mono descriptor of 20-bit samples in two bytes per frame. -/
def twentyBitInput : StreamDescription :=
  { mSampleRate := 0, mFormatID := kAudioFormatLinearPCM, mFormatFlags := 0xC,
    mBytesPerPacket := 2, mFramesPerPacket := 1, mBytesPerFrame := 2,
    mChannelsPerFrame := 1, mBitsPerChannel := 20, mReserved := 0 }

/-- A linear-PCM descriptor without bytes per frame. -/
def zeroFrameInput : StreamDescription :=
  { mSampleRate := 0, mFormatID := kAudioFormatLinearPCM, mFormatFlags := 0x2B,
    mBytesPerPacket := 0, mFramesPerPacket := 1, mBytesPerFrame := 0,
    mChannelsPerFrame := 2, mBitsPerChannel := 32, mReserved := 0 }

/-- An Apple-Lossless descriptor with the 24-bit-source flags. -/
def losslessInput : StreamDescription :=
  { mSampleRate := 0, mFormatID := kAudioFormatAppleLossless, mFormatFlags := 3,
    mBytesPerPacket := 0, mFramesPerPacket := 4096, mBytesPerFrame := 0,
    mChannelsPerFrame := 2, mBitsPerChannel := 0, mReserved := 0 }

/-- A sample-rate insertion used in examples: the text `44100` whatever the value. -/
def showRate44100 (_ : Nat) : String := "44100"

/-- Every field of a component description is in the range of `UInt32`. -/
def AudioComponentDescription.WellFormed (acd : AudioComponentDescription) : Prop :=
  acd.componentType < 2 ^ 32 ∧ acd.componentSubType < 2 ^ 32 ∧
  acd.componentManufacturer < 2 ^ 32 ∧ acd.componentFlags < 2 ^ 32 ∧
  acd.componentFlagsMask < 2 ^ 32

instance (acd : AudioComponentDescription) : Decidable acd.WellFormed := by
  unfold AudioComponentDescription.WellFormed; infer_instance

/-- An MPEG-4 AAC descriptor, a format that is neither linear PCM nor Apple
Lossless. -/
def aacInput : StreamDescription :=
  { mSampleRate := 0, mFormatID := fourcc "aac ", mFormatFlags := 0x2D,
    mBytesPerPacket := 0, mFramesPerPacket := 1024, mBytesPerFrame := 0,
    mChannelsPerFrame := 2, mBitsPerChannel := 0, mReserved := 0 }

/-- The 16-bit mono descriptor of the spec's example: signed and packed bits set. -/
def monoInput : StreamDescription :=
  { mSampleRate := 0, mFormatID := kAudioFormatLinearPCM, mFormatFlags := 0xC,
    mBytesPerPacket := 2, mFramesPerPacket := 1, mBytesPerFrame := 2,
    mChannelsPerFrame := 1, mBitsPerChannel := 16, mReserved := 0 }

/-- The 16-bit mono descriptor with the float bit set besides the signed and
packed bits. -/
def monoFloatInput : StreamDescription :=
  { mSampleRate := 0, mFormatID := kAudioFormatLinearPCM, mFormatFlags := 0xD,
    mBytesPerPacket := 2, mFramesPerPacket := 1, mBytesPerFrame := 2,
    mChannelsPerFrame := 1, mBitsPerChannel := 16, mReserved := 0 }

/-- A mono descriptor of 24-bit samples in two bytes per frame: the container
is smaller than the bit depth. -/
def narrowContainerInput : StreamDescription :=
  { mSampleRate := 0, mFormatID := kAudioFormatLinearPCM, mFormatFlags := 0xC,
    mBytesPerPacket := 2, mFramesPerPacket := 1, mBytesPerFrame := 2,
    mChannelsPerFrame := 1, mBitsPerChannel := 24, mReserved := 0 }

/-- A linear-PCM descriptor with no bits per channel and one fraction bit. -/
def zeroBitsInput : StreamDescription :=
  { mSampleRate := 0, mFormatID := kAudioFormatLinearPCM, mFormatFlags := 0x8C,
    mBytesPerPacket := 2, mFramesPerPacket := 1, mBytesPerFrame := 2,
    mChannelsPerFrame := 1, mBitsPerChannel := 0, mReserved := 0 }

/-- Apple's pitch effect unit, with flag words whose bytes are printable. -/
def pitchUnit : AudioComponentDescription :=
  { componentType := fourcc "aufx", componentSubType := fourcc "tmpt",
    componentManufacturer := fourcc "appl", componentFlags := 0x61626364,
    componentFlagsMask := 0 }

/-- A component description whose three codes are in no table. -/
def unknownUnit : AudioComponentDescription :=
  { componentType := fourcc "Flag", componentSubType := fourcc "s:  ",
    componentManufacturer := 7, componentFlags := 0, componentFlagsMask := 0xFFFFFFFF }

/-- All four bytes of a 32-bit code are printable ASCII. -/
def allPrintable (c : Nat) : Prop :=
  printableAscii (c / 16777216 % 256) ∧ printableAscii (c / 65536 % 256) ∧
    printableAscii (c / 256 % 256) ∧ printableAscii (c % 256)

instance (c : Nat) : Decidable (allPrintable c) := by
  unfold allPrintable; infer_instance

/-! ## Hexadecimal insertion and `FourCC` -/

theorem fixedHex_zero (k : Nat) : fixedHex k 0 = List.replicate k '0' := by
  induction k with
  | zero => rfl
  | succ k ih =>
    simp only [fixedHex, Nat.zero_div, ih, Nat.zero_mod]
    rw [List.replicate_succ']
    rfl

theorem hexDigitsCore_spec (k : Nat) : ∀ (v fuel : Nat) (acc : List Char),
    v < 16 ^ (k + 1) → v < fuel →
    ∃ ds : List Char, hexDigitsCore fuel v acc = ds ++ acc ∧ ds.length ≤ k + 1 ∧
      List.replicate (k + 1 - ds.length) '0' ++ ds = fixedHex (k + 1) v := by
  induction k with
  | zero =>
    intro v fuel acc hv hf
    obtain ⟨f, rfl⟩ : ∃ f, fuel = f + 1 := ⟨fuel - 1, by omega⟩
    have h0 : v / 16 = 0 := by omega
    refine ⟨[hexDigitUpper (v % 16)], ?_, by simp, ?_⟩
    · simp [hexDigitsCore, h0]
    · simp [fixedHex]
  | succ k ih =>
    intro v fuel acc hv hf
    obtain ⟨f, rfl⟩ : ∃ f, fuel = f + 1 := ⟨fuel - 1, by omega⟩
    by_cases h0 : v / 16 = 0
    · refine ⟨[hexDigitUpper (v % 16)], ?_, by simp, ?_⟩
      · simp [hexDigitsCore, h0]
      · rw [fixedHex, h0, fixedHex_zero]
        simp
    · have hv' : v / 16 < 16 ^ (k + 1) := by
        rw [Nat.div_lt_iff_lt_mul (by norm_num)]
        calc v < 16 ^ (k + 1 + 1) := hv
          _ = 16 ^ (k + 1) * 16 := by rw [pow_succ]
      obtain ⟨ds, hds, hlen, hpad⟩ :=
        ih (v / 16) f (hexDigitUpper (v % 16) :: acc) hv' (by omega)
      refine ⟨ds ++ [hexDigitUpper (v % 16)], ?_, by simp; omega, ?_⟩
      · rw [hexDigitsCore, if_neg h0, hds]
        simp
      · have hfx : fixedHex (k + 1 + 1) v =
            fixedHex (k + 1) (v / 16) ++ [hexDigitUpper (v % 16)] := rfl
        rw [hfx, ← hpad]
        have : k + 1 + 1 - (ds ++ [hexDigitUpper (v % 16)]).length = k + 1 - ds.length := by
          simp
        rw [this, List.append_assoc]

theorem padLeft_hexDigits (k v : Nat) (hv : v < 16 ^ (k + 1)) :
    padLeft (k + 1) '0' (hexDigits v) = fixedHex (k + 1) v := by
  obtain ⟨ds, hds, _, hpad⟩ := hexDigitsCore_spec k v (v + 1) [] hv (by omega)
  unfold padLeft hexDigits
  rw [hds, List.append_nil]
  exact hpad

/-- `ToHex` of a 32-bit value is the eight-digit hexadecimal form. -/
theorem ToHex_four (c : Nat) (hc : c < 2 ^ 32) : ToHex 4 c = hexForm c := by
  unfold ToHex hexForm
  rw [show 2 * 4 = 7 + 1 from rfl, padLeft_hexDigits 7 c (by norm_num at hc ⊢; omega)]
  simp only [fixedHex, List.nil_append, List.cons_append]
  have e1 : c / 16 / 16 / 16 / 16 / 16 / 16 / 16 % 16 = c / 16 ^ 7 % 16 := by omega
  have e2 : c / 16 / 16 / 16 / 16 / 16 / 16 % 16 = c / 16 ^ 6 % 16 := by omega
  have e3 : c / 16 / 16 / 16 / 16 / 16 % 16 = c / 16 ^ 5 % 16 := by omega
  have e4 : c / 16 / 16 / 16 / 16 % 16 = c / 16 ^ 4 % 16 := by omega
  have e5 : c / 16 / 16 / 16 % 16 = c / 16 ^ 3 % 16 := by omega
  have e6 : c / 16 / 16 % 16 = c / 16 ^ 2 % 16 := by omega
  have e7 : c / 16 % 16 = c / 16 ^ 1 % 16 := by omega
  rw [e1, e2, e3, e4, e5, e6, e7]

/-- Claim C1. FourCC rendering: with `b0 .. b3` the bytes of the 32-bit code `c`
from most to least significant, the text is the quoted form of the four bytes
(six characters) when all four are printable ASCII, and otherwise `0x` followed
by the eight zero-padded uppercase hexadecimal digits of `c` (ten characters). -/
theorem FourCC_repr_cases (c : Nat) (hc : c < 2 ^ 32) :
    (printableAscii (c / 16777216 % 256) ∧ printableAscii (c / 65536 % 256) ∧
        printableAscii (c / 256 % 256) ∧ printableAscii (c % 256) →
      (FourCC.new c).repr = quotedForm (c / 16777216 % 256) (c / 65536 % 256)
        (c / 256 % 256) (c % 256) ∧ (FourCC.new c).repr.length = 6) ∧
    (¬ (printableAscii (c / 16777216 % 256) ∧ printableAscii (c / 65536 % 256) ∧
        printableAscii (c / 256 % 256) ∧ printableAscii (c % 256)) →
      (FourCC.new c).repr = hexForm c ∧ (FourCC.new c).repr.length = 10) := by
  have hr : (List.range 4).map (bigePrnt c) =
      [c / 16777216 % 256, c / 65536 % 256, c / 256 % 256, c % 256] := by
    simp [List.range, List.range.loop, bigePrnt]
  constructor
  · rintro ⟨h0, h1, h2, h3⟩
    have hany : ((List.range 4).map (bigePrnt c)).any (fun b => !isprint b) = false := by
      rw [hr]
      simp only [printableAscii] at h0 h1 h2 h3
      simp [isprint, h0, h1, h2, h3]
    have : (FourCC.new c).repr = quotedForm (c / 16777216 % 256) (c / 65536 % 256)
        (c / 256 % 256) (c % 256) := by
      unfold FourCC.new
      simp only [hany]
      simp [hr, quotedForm]
    refine ⟨this, ?_⟩
    rw [this]
    simp [quotedForm, String.length]
  · intro hn
    have hany : ((List.range 4).map (bigePrnt c)).any (fun b => !isprint b) = true := by
      rw [hr]
      simp only [printableAscii] at hn
      simp only [List.any_cons, List.any_nil, isprint, Bool.or_false, Bool.or_eq_true,
        Bool.not_eq_true', decide_eq_false_iff_not]
      tauto
    have : (FourCC.new c).repr = hexForm c := by
      unfold FourCC.new
      simp only [hany]
      simp [ToHex_four c hc]
    refine ⟨this, ?_⟩
    rw [this]
    simp [hexForm, String.length]

theorem FourCC_repr_cases_witness :
    ((FourCC.new 0x61646732).repr = quotedForm 0x61 0x64 0x67 0x32 ∧
      (FourCC.new 0x61646732).repr.length = 6) ∧
    ((FourCC.new 0x0D0A0061).repr = hexForm 0x0D0A0061 ∧
      (FourCC.new 0x0D0A0061).repr.length = 10) :=
  ⟨(FourCC_repr_cases 0x61646732 (by decide)).1 (by decide),
   (FourCC_repr_cases 0x0D0A0061 (by decide)).2 (by decide)⟩

/-! ## The name tables -/

theorem find_assign (m : OSTypeToStringMap) (key : OSType) (label : String) (type : OSType) :
    (m.assign key label).find type = if key = type then some label else m.find type := by
  induction m with
  | nil => simp [OSTypeToStringMap.assign, OSTypeToStringMap.find]
  | cons e rest ih =>
    obtain ⟨k, v⟩ := e
    unfold OSTypeToStringMap.assign
    by_cases hk : k = key
    · subst hk
      simp only [if_true, OSTypeToStringMap.find]
      by_cases hkt : k = type <;> simp [hkt]
    · simp only [if_neg hk]
      by_cases hlt : key < k
      · simp only [if_pos hlt, OSTypeToStringMap.find]
      · simp only [if_neg hlt, OSTypeToStringMap.find, ih]
        by_cases hkt : k = type
        · subst hkt
          simp [Ne.symm hk]
        · simp [hkt]

theorem mem_keys_assign (m : OSTypeToStringMap) (key : OSType) (label : String) (x : OSType)
    (hx : x ∈ (m.assign key label).map Prod.fst) : x = key ∨ x ∈ m.map Prod.fst := by
  induction m with
  | nil => simpa [OSTypeToStringMap.assign] using hx
  | cons e rest ih =>
    obtain ⟨k, v⟩ := e
    unfold OSTypeToStringMap.assign at hx
    by_cases hk : k = key
    · subst hk
      simpa using hx
    · simp only [if_neg hk] at hx
      by_cases hlt : key < k
      · simp only [if_pos hlt] at hx
        simpa using hx
      · simp only [if_neg hlt, List.map_cons, List.mem_cons] at hx
        rcases hx with h | h
        · right; simp [h]
        · rcases ih h with h | h
          · left; exact h
          · right; simp [h]

theorem keysSorted_assign (m : OSTypeToStringMap) (key : OSType) (label : String)
    (hm : KeysSorted m) : KeysSorted (m.assign key label) := by
  induction m with
  | nil => simp [OSTypeToStringMap.assign, KeysSorted]
  | cons e rest ih =>
    obtain ⟨k, v⟩ := e
    unfold KeysSorted at hm ih ⊢
    simp only [List.map_cons, List.pairwise_cons] at hm
    unfold OSTypeToStringMap.assign
    by_cases hk : k = key
    · subst hk
      simp only [if_true, List.map_cons, List.pairwise_cons]
      exact hm
    · simp only [if_neg hk]
      by_cases hlt : key < k
      · simp only [if_pos hlt, List.map_cons, List.pairwise_cons, List.mem_cons]
        refine ⟨?_, hm⟩
        rintro a (rfl | ha)
        · exact hlt
        · exact lt_trans hlt (hm.1 a ha)
      · simp only [if_neg hlt, List.map_cons, List.pairwise_cons]
        refine ⟨?_, ih hm.2⟩
        intro a ha
        rcases mem_keys_assign rest key label a ha with rfl | h
        · exact lt_of_le_of_ne (not_lt.mp hlt) hk
        · exact hm.1 a h

theorem keysSorted_assignAll (stmts : List (OSType × String)) :
    ∀ m : OSTypeToStringMap, KeysSorted m → KeysSorted (assignAll m stmts) := by
  induction stmts with
  | nil => intro m hm; exact hm
  | cons s rest ih =>
    intro m hm
    exact ih _ (keysSorted_assign m s.1 s.2 hm)

theorem find_eq_none_of_not_mem (m : OSTypeToStringMap) (type : OSType)
    (h : type ∉ m.map Prod.fst) : m.find type = none := by
  induction m with
  | nil => rfl
  | cons e rest ih =>
    obtain ⟨k, v⟩ := e
    simp only [List.map_cons, List.mem_cons, not_or] at h
    simp [OSTypeToStringMap.find, Ne.symm h.1, ih h.2]

theorem find_eq_some_of_mem (m : OSTypeToStringMap) (hm : KeysSorted m) (type : OSType)
    (label : String) (h : (type, label) ∈ m) : m.find type = some label := by
  induction m with
  | nil => simp at h
  | cons e rest ih =>
    obtain ⟨k, v⟩ := e
    unfold KeysSorted at hm ih
    simp only [List.map_cons, List.pairwise_cons] at hm
    simp only [List.mem_cons, Prod.mk.injEq] at h
    rcases h with ⟨rfl, rfl⟩ | h
    · simp [OSTypeToStringMap.find]
    · have hlt : k < type := hm.1 type (List.mem_map.mpr ⟨(type, label), h, rfl⟩)
      have hne : k ≠ type := Nat.ne_of_lt hlt
      simp [OSTypeToStringMap.find, hne, ih hm.2 h]

theorem keysSorted_tables :
    KeysSorted kAudioUnitManufacturer ∧ KeysSorted kAudioUnitType ∧
    KeysSorted kAudioUnitSubType ∧ KeysSorted kAudioFormat :=
  ⟨keysSorted_assignAll _ [] List.Pairwise.nil, keysSorted_assignAll _ [] List.Pairwise.nil,
   keysSorted_assignAll _ [] List.Pairwise.nil, keysSorted_assignAll _ [] List.Pairwise.nil⟩

/-- Claim C2. Code resolution: against each of the four name tables,
`OSTypeToString` returns the label of the entry whose key is the code, and
returns the text of `FourCC` for a code that is no key of the table. -/
theorem OSTypeToString_resolves (typemap : OSTypeToStringMap)
    (htable : typemap ∈ [kAudioUnitManufacturer, kAudioUnitType, kAudioUnitSubType,
      kAudioFormat]) (code : OSType) :
    (∀ label : String, (code, label) ∈ typemap → OSTypeToString code typemap = label) ∧
    (code ∉ typemap.map Prod.fst → OSTypeToString code typemap = (FourCC.new code).repr) := by
  have hs : KeysSorted typemap := by
    simp only [List.mem_cons, List.mem_singleton, List.not_mem_nil, or_false] at htable
    rcases htable with rfl | rfl | rfl | rfl
    · exact keysSorted_tables.1
    · exact keysSorted_tables.2.1
    · exact keysSorted_tables.2.2.1
    · exact keysSorted_tables.2.2.2
  constructor
  · intro label hmem
    unfold OSTypeToString
    rw [find_eq_some_of_mem typemap hs code label hmem]
  · intro hnot
    unfold OSTypeToString
    rw [find_eq_none_of_not_mem typemap code hnot]

theorem OSTypeToString_resolves_witness :
    OSTypeToString (fourcc "alac") kAudioFormat = "AppleLossless" ∧
    OSTypeToString 5 kAudioFormat = (FourCC.new 5).repr :=
  ⟨(OSTypeToString_resolves kAudioFormat (by simp) (fourcc "alac")).1 "AppleLossless"
      (by decide),
   (OSTypeToString_resolves kAudioFormat (by simp) 5).2 (by decide)⟩

/-! ## Flag bits and derived quantities -/

theorem and_two_pow_eq (n k : Nat) : n &&& 2 ^ k = if n.testBit k then 2 ^ k else 0 := by
  apply Nat.eq_of_testBit_eq
  intro i
  rw [Nat.testBit_and, Nat.testBit_two_pow]
  by_cases hki : k = i
  · subst hki
    by_cases hb : n.testBit k <;> simp [hb, Nat.testBit_two_pow_self]
  · by_cases hb : n.testBit k <;> simp [hb, hki, Nat.testBit_two_pow_of_ne hki]

theorem truthy_and_two_pow (n k : Nat) : truthy (n &&& 2 ^ k) = n.testBit k := by
  rw [and_two_pow_eq]
  by_cases hb : n.testBit k
  · have : 2 ^ k ≠ 0 := by positivity
    simp [hb, truthy, this]
  · simp [hb, truthy]

theorem truthy_flag (n : Nat) :
    truthy (n &&& 0x1) = n.testBit 0 ∧ truthy (n &&& 0x2) = n.testBit 1 ∧
    truthy (n &&& 0x4) = n.testBit 2 ∧ truthy (n &&& 0x8) = n.testBit 3 ∧
    truthy (n &&& 0x10) = n.testBit 4 ∧ truthy (n &&& 0x20) = n.testBit 5 :=
  ⟨truthy_and_two_pow n 0, truthy_and_two_pow n 1, truthy_and_two_pow n 2,
   truthy_and_two_pow n 3, truthy_and_two_pow n 4, truthy_and_two_pow n 5⟩

theorem NumberInterleavedChannels_eq (d : StreamDescription) :
    d.NumberInterleavedChannels = interleavedChannelCount d := by
  unfold StreamDescription.NumberInterleavedChannels StreamDescription.IsInterleaved
    StreamDescription.IsPCM interleavedChannelCount kAudioFormatFlagIsNonInterleaved
  rw [(truthy_flag d.mFormatFlags).2.2.2.2.2]
  by_cases hp : d.mFormatID = kAudioFormatLinearPCM
  · by_cases hb : d.mFormatFlags.testBit 5 <;> simp [hp, hb]
  · simp [hp]

theorem SampleWordSize_eq (d : StreamDescription) :
    d.SampleWordSize = some (sampleWordSizeBytes d) := by
  unfold StreamDescription.SampleWordSize sampleWordSizeBytes
  rw [NumberInterleavedChannels_eq]
  by_cases hb : 0 < d.mBytesPerFrame
  · by_cases hn : 0 < interleavedChannelCount d
    · have hn0 : interleavedChannelCount d ≠ 0 := by omega
      simp [hb, hn, truthy, udiv, hn0]
    · have hn0 : interleavedChannelCount d = 0 := by omega
      simp [hb, truthy, hn0]
  · simp [hb]

/-- Claim C7. Word-size derivation is total: `SampleWordSize` always has a result
(its division is never evaluated on a zero divisor), namely
`bytesPerFrame / interleavedChannelCount` when both are positive and `0`
otherwise, with `interleavedChannelCount` equal to `channelsPerFrame` for an
interleaved descriptor (not linear PCM, or flag bit `0x20` clear) and to `1`
otherwise. -/
theorem SampleWordSize_total (d : StreamDescription) :
    d.SampleWordSize = some
      (if 0 < d.mBytesPerFrame ∧
          0 < (if d.mFormatID ≠ kAudioFormatLinearPCM ∨ d.mFormatFlags.testBit 5 = false
            then d.mChannelsPerFrame else 1)
        then d.mBytesPerFrame /
          (if d.mFormatID ≠ kAudioFormatLinearPCM ∨ d.mFormatFlags.testBit 5 = false
            then d.mChannelsPerFrame else 1)
        else 0) ∧
    (d.mFormatID ≠ kAudioFormatLinearPCM ∨ d.mFormatFlags.testBit 5 = false ↔
      d.IsInterleaved = true) ∧
    d.NumberInterleavedChannels =
      (if d.mFormatID ≠ kAudioFormatLinearPCM ∨ d.mFormatFlags.testBit 5 = false
        then d.mChannelsPerFrame else 1) := by
  refine ⟨SampleWordSize_eq d, ?_, NumberInterleavedChannels_eq d⟩
  unfold StreamDescription.IsInterleaved StreamDescription.IsPCM
    kAudioFormatFlagIsNonInterleaved
  rw [(truthy_flag d.mFormatFlags).2.2.2.2.2]
  by_cases hp : d.mFormatID = kAudioFormatLinearPCM
  · by_cases hb : d.mFormatFlags.testBit 5 <;> simp [hp, hb]
  · simp [hp]

theorem sampleWordSizeBytes_le (d : StreamDescription) :
    sampleWordSizeBytes d ≤ d.mBytesPerFrame := by
  unfold sampleWordSizeBytes
  split
  · exact Nat.div_le_self _ _
  · exact Nat.zero_le _

theorem PackednessIsSignificant_eq (d : StreamDescription) :
    d.PackednessIsSignificant = some (decide (packednessSignificant d)) := by
  unfold StreamDescription.PackednessIsSignificant StreamDescription.IsPCM
    packednessSignificant
  by_cases hp : d.mFormatID = kAudioFormatLinearPCM
  · simp [hp, SampleWordSize_eq, wrap32, Nat.shiftLeft_eq]
  · simp [hp]

theorem AlignmentIsSignificant_eq (d : StreamDescription)
    (hpcm : d.mFormatID = kAudioFormatLinearPCM) :
    d.AlignmentIsSignificant = some (decide (packednessSignificant d)) := by
  unfold StreamDescription.AlignmentIsSignificant
  rw [PackednessIsSignificant_eq]
  by_cases hp : packednessSignificant d
  · simp [hp]
  · have h8 : d.mBitsPerChannel &&& 7 = d.mBitsPerChannel % 8 :=
      Nat.and_pow_two_sub_one_eq_mod d.mBitsPerChannel 3
    have hb : d.mBitsPerChannel % 8 = 0 := by
      unfold packednessSignificant at hp
      have : (sampleWordSizeBytes d * 8) % 4294967296 = d.mBitsPerChannel := by
        by_contra hne
        exact hp ⟨hpcm, hne⟩
      omega
    simp [hp, h8, hb]

theorem toInt32_of_lt (n : Nat) (h : n < 2147483648) : toInt32 n = (n : Int) := by
  unfold toInt32 wrap32
  have : n % 4294967296 = n := Nat.mod_eq_of_lt (by omega)
  simp [this, h]

theorem toInt32_pos_iff (n : Nat) (h : n < 4294967296) (k : Nat) :
    (toInt32 n > (k : Int)) ↔ (k < n ∧ n < 2147483648) := by
  unfold toInt32 wrap32
  have hm : n % 4294967296 = n := Nat.mod_eq_of_lt h
  rw [hm]
  by_cases hlt : n < 2147483648
  · simp only [hlt, if_true, and_true]
    omega
  · simp only [hlt, if_false, and_false, iff_false]
    omega

theorem showInt_natCast (n : Nat) : showInt (n : Int) = showUnsigned n := rfl

theorem fractionBits_le (d : StreamDescription) : fractionBits d ≤ 63 := by
  unfold fractionBits
  have h : d.mFormatFlags &&& 0x1F80 ≤ 0x1F80 := Nat.and_le_right
  rw [Nat.shiftRight_eq_div_pow]
  omega

theorem ofInt32_natCast (n : Nat) (h : n < 4294967296) : ofInt32 (n : Int) = n := by
  unfold ofInt32
  omega

theorem usub32_eq (a b : Nat) (ha : a < 4294967296) (hb : b < 4294967296) :
    usub32 a b = (a + 4294967296 - b) % 4294967296 := by
  unfold usub32 wrap32
  rw [Nat.mod_eq_of_lt ha, Nat.mod_eq_of_lt hb]

theorem ite_append_push (c : Prop) [Decidable c] (out a b : String) :
    (if c then out ++ a else out ++ b) = out ++ (if c then a else b) := by
  split <;> rfl

theorem ite_append_self (c : Prop) [Decidable c] (out a : String) :
    (if c then out ++ a else out) = out ++ (if c then a else "") := by
  split
  · rfl
  · exact (String.append_empty out).symm

theorem ite_self_append (c : Prop) [Decidable c] (out a : String) :
    (if c then out else out ++ a) = out ++ (if c then "" else a) := by
  split
  · exact (String.append_empty out).symm
  · rfl

theorem ite_eq_false_swap (b : Bool) (x y : String) :
    (if b = false then x else y) = (if b = true then y else x) := by
  cases b <;> rfl

theorem sampleTypeClause_tokens (d : StreamDescription) :
    (if d.mFormatFlags.testBit 0 = true then "floating-point"
      else (if d.mFormatFlags.testBit 2 = true then "signed" else "unsigned") ++ " integer") =
    sampleTypeClause d := by
  unfold sampleTypeClause
  cases d.mFormatFlags.testBit 0 <;> cases d.mFormatFlags.testBit 2 <;> rfl

theorem ToStringLinearPCM_eq (d : StreamDescription) (out : String)
    (hwf : d.WellFormed) (hpcm : d.mFormatID = kAudioFormatLinearPCM) :
    d.ToStringLinearPCM out = some (out ++ linearPCMText d) := by
  obtain ⟨_, _, _, _, _, hbpf, _, hbits, _⟩ := hwf
  have hws : sampleWordSizeBytes d < 4294967296 :=
    lt_of_le_of_lt (sampleWordSizeBytes_le d) (by simpa using hbpf)
  have hbits' : d.mBitsPerChannel < 4294967296 := by simpa using hbits
  have hfl := fractionBits_le d
  have hfrac : toInt32 ((d.mFormatFlags &&& kLinearPCMFormatFlagsSampleFractionMask) >>>
      kLinearPCMFormatFlagsSampleFractionShift) = (fractionBits d : Int) :=
    toInt32_of_lt _ (by
      unfold fractionBits at hfl
      unfold kLinearPCMFormatFlagsSampleFractionMask kLinearPCMFormatFlagsSampleFractionShift
      omega)
  obtain ⟨f0, f1, f2, f3, f4, f5⟩ := truthy_flag d.mFormatFlags
  have hg1 : (1 < toInt32 (sampleWordSizeBytes d)) ↔
      (1 < sampleWordSizeBytes d ∧ sampleWordSizeBytes d < 2147483648) := by
    simpa using toInt32_pos_iff (sampleWordSizeBytes d) hws 1
  have hg0 : (0 < toInt32 (sampleWordSizeBytes d)) ↔
      (0 < sampleWordSizeBytes d ∧ sampleWordSizeBytes d < 2147483648) := by
    simpa using toInt32_pos_iff (sampleWordSizeBytes d) hws 0
  have hsub : usub32 d.mBitsPerChannel (ofInt32 (fractionBits d : Int)) =
      (d.mBitsPerChannel + 4294967296 - fractionBits d) % 4294967296 := by
    rw [ofInt32_natCast _ (by omega), usub32_eq _ _ hbits' (by omega)]
  have hshow : sampleWordSizeBytes d < 2147483648 →
      showInt (toInt32 (sampleWordSizeBytes d)) = showUnsigned (sampleWordSizeBytes d) := by
    intro h
    rw [toInt32_of_lt _ h, showInt_natCast]
  unfold StreamDescription.ToStringLinearPCM
  simp only [hfrac, SampleWordSize_eq, PackednessIsSignificant_eq,
    AlignmentIsSignificant_eq d hpcm, Option.bind_eq_bind, Option.some_bind,
    Option.pure_def, gt_iff_lt, hg1, hg0, hsub, showInt_natCast, Nat.cast_pos,
    kLinearPCMFormatFlagIsFloat, kLinearPCMFormatFlagIsBigEndian,
    kLinearPCMFormatFlagIsSignedInteger, kLinearPCMFormatFlagIsPacked,
    kLinearPCMFormatFlagIsAlignedHigh, kAudioFormatFlagIsFloat, kAudioFormatFlagIsBigEndian,
    kAudioFormatFlagIsSignedInteger, kAudioFormatFlagIsPacked, kAudioFormatFlagIsAlignedHigh,
    kAudioFormatFlagIsNonInterleaved, f0, f1, f2, f3, f4, f5, StreamDescription.eol]
  unfold linearPCMText
  by_cases hw0 : 0 < sampleWordSizeBytes d ∧ sampleWordSizeBytes d < 2147483648 <;>
  by_cases hps : packednessSignificant d <;>
  simp only [hw0, hps, if_true, if_false, decide_True, decide_False, true_and, and_true,
    and_self, false_and, and_false, Bool.false_eq_true, Bool.not_eq_true',
    String.append_assoc, ite_append_push, ite_append_self, ite_self_append,
    ite_eq_false_swap, sampleTypeClause_tokens] <;>
  first
  | simp only [bitDepthText, endianClause, packedClause, alignClause, interleaveClause,
      String.append_assoc, String.empty_append, hshow hw0.2]
  | simp only [bitDepthText, endianClause, packedClause, alignClause, interleaveClause,
      String.append_assoc, String.empty_append]

/-! ## Occurrences of a digit-free pattern in a text with numbers -/

theorem digitChar_isDigit : ∀ m : Nat, m < 10 → (Nat.digitChar m).isDigit = true := by
  decide

theorem toDigitsCore_digits (fuel : Nat) : ∀ (n : Nat) (acc : List Char),
    (∀ c ∈ acc, c.isDigit = true) →
    (∀ c ∈ Nat.toDigitsCore 10 fuel n acc, c.isDigit = true) ∧
    (acc ≠ [] ∨ 0 < fuel → Nat.toDigitsCore 10 fuel n acc ≠ []) := by
  induction fuel with
  | zero =>
    intro n acc hacc
    simp only [Nat.toDigitsCore]
    exact ⟨hacc, fun h => h.elim id (fun h => absurd h (Nat.lt_irrefl 0))⟩
  | succ fuel ih =>
    intro n acc hacc
    have hd : ∀ c ∈ Nat.digitChar (n % 10) :: acc, c.isDigit = true := by
      intro c hc
      rcases List.mem_cons.mp hc with rfl | hc
      · exact digitChar_isDigit _ (Nat.mod_lt _ (by norm_num))
      · exact hacc c hc
    simp only [Nat.toDigitsCore]
    split
    · exact ⟨hd, fun _ => List.cons_ne_nil _ _⟩
    · exact ⟨(ih _ _ hd).1, fun _ => (ih _ _ hd).2 (Or.inl (List.cons_ne_nil _ _))⟩

theorem repr_digits (n : Nat) :
    (∀ c ∈ (Nat.repr n).data, c.isDigit = true) ∧ (Nat.repr n).data ≠ [] := by
  have h := toDigitsCore_digits (n + 1) n [] (by simp)
  exact ⟨h.1, h.2 (Or.inr (Nat.succ_pos n))⟩

/-- An occurrence of a digit-free pattern does not cross a digit. -/
theorem infix_digit_split (p : List Char) (hp : ∀ c ∈ p, c.isDigit = false) (c : Char)
    (hc : c.isDigit = true) (B : List Char) :
    ∀ A : List Char, p <:+: A ++ c :: B → p <:+: A ∨ p <:+: B := by
  have hcp : c ∉ p := fun h => by
    have := hp c h
    rw [hc] at this
    exact Bool.noConfusion this
  intro A
  induction A with
  | nil =>
    intro h
    rw [List.nil_append, List.infix_cons_iff] at h
    rcases h with h | h
    · rcases List.prefix_cons_iff.mp h with rfl | ⟨t, rfl, _⟩
      · exact Or.inl List.nil_infix
      · exact absurd (List.mem_cons_self c t) hcp
    · exact Or.inr h
  | cons a A ih =>
    intro h
    rw [List.cons_append, List.infix_cons_iff] at h
    rcases h with h | h
    · have hX : a :: A <+: a :: (A ++ c :: B) := ⟨c :: B, by simp⟩
      rcases List.prefix_or_prefix_of_prefix h hX with h1 | h1
      · exact Or.inl h1.isInfix
      · obtain ⟨t, rfl⟩ := h1
        have ht : t <+: c :: B := by
          have : (a :: A) ++ t <+: (a :: A) ++ (c :: B) := by simpa using h
          exact (List.prefix_append_right_inj _).mp this
        rcases List.prefix_cons_iff.mp ht with rfl | ⟨t', rfl, _⟩
        · exact Or.inl (by simp)
        · exact absurd (by simp) hcp
    · rcases ih h with h1 | h1
      · exact Or.inl (List.infix_cons h1)
      · exact Or.inr h1

/-- An occurrence of a digit-free pattern does not cross a run of digits. -/
theorem infix_digits_split (p : List Char) (hp : ∀ c ∈ p, c.isDigit = false)
    (A B : List Char) : ∀ D : List Char, D ≠ [] → (∀ c ∈ D, c.isDigit = true) →
    p <:+: A ++ (D ++ B) → p <:+: A ∨ p <:+: B := by
  intro D
  induction D generalizing A with
  | nil => intro h; exact absurd rfl h
  | cons c D ih =>
    intro _ hD h
    rw [List.cons_append] at h
    rcases infix_digit_split p hp c (hD c (List.mem_cons_self c D)) (D ++ B) A h with h1 | h1
    · exact Or.inl h1
    · by_cases hDn : D = []
      · subst hDn
        exact Or.inr (by simpa using h1)
      · have h2 : p <:+: [] ++ (D ++ B) := by simpa using h1
        rcases ih [] hDn (fun x hx => hD x (List.mem_cons_of_mem c hx)) h2 with h3 | h3
        · exact Or.inl ((List.infix_nil.mp h3) ▸ List.nil_infix)
        · exact Or.inr h3

/-- An occurrence of a digit-free pattern lies inside one run of fixed text. -/
theorem infix_runs (p : List Char) (hp : ∀ c ∈ p, c.isDigit = false) :
    ∀ (t : List Seg) (acc : List Char), p <:+: acc ++ renderSegs t →
      ∃ r ∈ litRunsAux acc t, p <:+: r := by
  intro t
  induction t with
  | nil =>
    intro acc h
    exact ⟨acc, by simp [litRunsAux], by simpa [renderSegs] using h⟩
  | cons s t ih =>
    intro acc h
    cases s with
    | lit s =>
      have h' : p <:+: (acc ++ s.data) ++ renderSegs t := by
        simpa [renderSegs, Seg.render, List.append_assoc] using h
      exact ih _ h'
    | num n =>
      have h' : p <:+: acc ++ ((Nat.repr n).data ++ renderSegs t) := by
        simpa [renderSegs, Seg.render] using h
      rcases infix_digits_split p hp acc (renderSegs t) _ (repr_digits n).2 (repr_digits n).1 h'
        with h1 | h1
      · exact ⟨acc, by simp [litRunsAux], h1⟩
      · obtain ⟨r, hr, hpr⟩ := ih [] (by simpa using h1)
        exact ⟨r, by simp [litRunsAux, hr], hpr⟩

/-- A digit-free pattern that no run of fixed text contains does not occur in
the rendered text. -/
theorem not_infix_of_noRunContains (p : List Char) (hp : ∀ c ∈ p, c.isDigit = false)
    (t : List Seg) (h : noRunContains p t = true) : ¬ p <:+: renderSegs t := by
  intro hin
  obtain ⟨r, hr, hpr⟩ := infix_runs p hp t [] (by simpa using hin)
  unfold noRunContains at h
  rw [List.all_eq_true] at h
  have := h r hr
  simp [hpr] at this

theorem linearPCMText_data (d : StreamDescription) :
    (linearPCMText d).data = renderSegs (linearPCMSegs d) := by
  unfold linearPCMText linearPCMSegs depthSegs bitDepthText packedClause showUnsigned
  by_cases hfr : 0 < fractionBits d <;>
  by_cases h1 : 1 < sampleWordSizeBytes d ∧ sampleWordSizeBytes d < 2147483648 <;>
  by_cases h0 : 0 < sampleWordSizeBytes d ∧ sampleWordSizeBytes d < 2147483648 ∧
      packednessSignificant d <;>
  (first | simp only [if_pos hfr] | simp only [if_neg hfr]) <;>
  (first | simp only [if_pos h1] | simp only [if_neg h1]) <;>
  (first | simp only [if_pos h0] | simp only [if_neg h0]) <;>
  simp only [String.data_append, renderSegs, Seg.render,
    List.append_assoc, List.cons_append, List.nil_append, List.append_nil]

/-! ## The three format families -/

theorem formatHeader_tokens (showDouble : Nat → String) (d : StreamDescription) :
    "" ++ showUnsigned d.mChannelsPerFrame ++ " Ch @ " ++ showDouble d.mSampleRate ++ " Hz" ++
      StreamDescription.eol ++ "Format: " ++ OSTypeToString d.mFormatID kAudioFormat ++
      StreamDescription.eol = formatHeader showDouble d := by
  unfold formatHeader StreamDescription.eol
  have h : " Hz, " = " Hz" ++ ", " := by decide
  rw [h]
  simp only [String.append_assoc, String.empty_append]

theorem ToString_linearPCM (showDouble : Nat → String) (d : StreamDescription)
    (hwf : d.WellFormed) (hpcm : d.mFormatID = kAudioFormatLinearPCM) :
    d.ToString showDouble = some (formatHeader showDouble d ++ linearPCMText d) := by
  have hne : d.mFormatID ≠ kAudioFormatAppleLossless := by
    rw [hpcm]; decide
  unfold StreamDescription.ToString
  simp only [if_neg hne, if_pos hpcm, formatHeader_tokens]
  exact ToStringLinearPCM_eq d _ hwf hpcm

/-- Claim C3. Apple-Lossless branch: for a descriptor whose `formatID` is `'alac'`
the description is the header with `Format: AppleLossless, `, then
`<D>-bit source data, <framesPerPacket>frames/packet`, where `D` is `16`, `20`,
`24`, `32` when the whole flags word is `1`, `2`, `3`, `4` and `??` for every
other flags value; with flags `3` the description contains `24-bit source data`. -/
theorem ToString_appleLossless (showDouble : Nat → String) (d : StreamDescription)
    (hid : d.mFormatID = kAudioFormatAppleLossless) :
    d.ToString showDouble = some
      (showUnsigned d.mChannelsPerFrame ++ " Ch @ " ++ showDouble d.mSampleRate ++
        " Hz, Format: AppleLossless, " ++
        (if d.mFormatFlags = 1 then "16" else if d.mFormatFlags = 2 then "20"
          else if d.mFormatFlags = 3 then "24" else if d.mFormatFlags = 4 then "32"
          else "??") ++
        "-bit source data, " ++ showUnsigned d.mFramesPerPacket ++ "frames/packet") ∧
    (d.mFormatFlags = 3 →
      ∃ s, d.ToString showDouble = some s ∧ Contains s "24-bit source data") := by
  have hname : OSTypeToString d.mFormatID kAudioFormat = "AppleLossless" := by
    rw [hid]; decide
  have hmain : d.ToString showDouble = some
      (showUnsigned d.mChannelsPerFrame ++ " Ch @ " ++ showDouble d.mSampleRate ++
        " Hz, Format: AppleLossless, " ++
        (if d.mFormatFlags = 1 then "16" else if d.mFormatFlags = 2 then "20"
          else if d.mFormatFlags = 3 then "24" else if d.mFormatFlags = 4 then "32"
          else "??") ++
        "-bit source data, " ++ showUnsigned d.mFramesPerPacket ++ "frames/packet") := by
    unfold StreamDescription.ToString
    simp only [if_pos hid, formatHeader_tokens, Option.pure_def]
    unfold formatHeader StreamDescription.losslessSourceBits StreamDescription.eol
      kAppleLosslessFormatFlag_16BitSourceData kAppleLosslessFormatFlag_20BitSourceData
      kAppleLosslessFormatFlag_24BitSourceData kAppleLosslessFormatFlag_32BitSourceData
    rw [hname]
    have h1 : " Hz, Format: AppleLossless, " = " Hz, " ++ ("Format: " ++ ("AppleLossless" ++ ", ")) := by
      decide
    have h2 : "-bit source data, " = "-bit source data" ++ ", " := by decide
    rw [h1, h2]
    simp only [String.append_assoc]
  refine ⟨hmain, fun h3 => ⟨_, hmain, ?_⟩⟩
  unfold Contains
  simp only [h3, String.data_append]
  have hlit : "24-bit source data".data <:+: ("24".data ++ "-bit source data, ".data) := by
    decide
  refine hlit.trans ⟨(showUnsigned d.mChannelsPerFrame).data ++ " Ch @ ".data ++
    (showDouble d.mSampleRate).data ++ " Hz, Format: AppleLossless, ".data,
    (showUnsigned d.mFramesPerPacket).data ++ "frames/packet".data, ?_⟩
  simp only [if_neg (show ¬ (3 = 1) by decide), if_neg (show ¬ (3 = 2) by decide), if_true,
    List.append_assoc]

theorem ToString_appleLossless_witness :
    StreamDescription.ToString showRate44100 losslessInput =
      some "2 Ch @ 44100 Hz, Format: AppleLossless, 24-bit source data, 4096frames/packet" :=
  (ToString_appleLossless showRate44100 losslessInput (by decide)).1

/-! ## Linear PCM: the clauses that depend on the word size -/

theorem noEndian_runs (d : StreamDescription)
    (h1 : ¬ (1 < sampleWordSizeBytes d ∧ sampleWordSizeBytes d < 2147483648)) :
    noRunContains "-endian".data (linearPCMSegs d) = true := by
  unfold linearPCMSegs depthSegs sampleTypeClause alignClause interleaveClause
  simp only [if_neg h1]
  generalize d.mFormatFlags.testBit 0 = b0
  generalize d.mFormatFlags.testBit 2 = b2
  generalize d.mFormatFlags.testBit 3 = b3
  generalize d.mFormatFlags.testBit 4 = b4
  generalize d.mFormatFlags.testBit 5 = b5
  by_cases hfr : 0 < fractionBits d <;>
  by_cases h0 : 0 < sampleWordSizeBytes d ∧ sampleWordSizeBytes d < 2147483648 ∧
      packednessSignificant d <;>
  (first | simp only [if_pos hfr] | simp only [if_neg hfr]) <;>
  (first | simp only [if_pos h0] | simp only [if_neg h0]) <;>
  cases b0 <;> cases b2 <;> cases b3 <;> cases b4 <;> cases b5 <;> rfl

theorem noPacked_runs (d : StreamDescription)
    (h0 : ¬ (0 < sampleWordSizeBytes d ∧ sampleWordSizeBytes d < 2147483648 ∧
      packednessSignificant d)) :
    noRunContains "packed in ".data (linearPCMSegs d) = true := by
  unfold linearPCMSegs depthSegs sampleTypeClause endianClause interleaveClause
  simp only [if_neg h0]
  generalize d.mFormatFlags.testBit 0 = b0
  generalize d.mFormatFlags.testBit 1 = b1
  generalize d.mFormatFlags.testBit 2 = b2
  generalize d.mFormatFlags.testBit 5 = b5
  by_cases hfr : 0 < fractionBits d <;>
  by_cases h1 : 1 < sampleWordSizeBytes d ∧ sampleWordSizeBytes d < 2147483648 <;>
  (first | simp only [if_pos hfr] | simp only [if_neg hfr]) <;>
  (first | simp only [if_pos h1] | simp only [if_neg h1]) <;>
  cases b0 <;> cases b1 <;> cases b2 <;> cases b5 <;> rfl

theorem digitFree_endian : ∀ c ∈ "-endian".data, c.isDigit = false := by decide

theorem digitFree_packed : ∀ c ∈ "packed in ".data, c.isDigit = false := by decide

theorem endianClause_contains (d : StreamDescription) :
    "-endian".data <:+: (endianClause d).data := by
  unfold endianClause
  cases d.mFormatFlags.testBit 1 <;> decide

/-- Claim C4, as amended. Endianness clause: for a well-formed linear-PCM
descriptor the description is the header followed by `linearPCMText`; that
text has the endianness clause (` big-endian` for a set bit `0x2`, otherwise
` little-endian`) directly after `-bit` if and only if the word size is greater
than `1` and below `2 ^ 31` (greater than `1` as a signed 32-bit `int`), and
otherwise does not contain `-endian` at all; `sampleWordSizeBytes` is the result
of `SampleWordSize`. -/
theorem endianness_clause (showDouble : Nat → String) (d : StreamDescription)
    (hwf : d.WellFormed) (hpcm : d.mFormatID = kAudioFormatLinearPCM) :
    d.SampleWordSize = some (sampleWordSizeBytes d) ∧
    d.ToString showDouble = some (formatHeader showDouble d ++ linearPCMText d) ∧
    (StartsWith (linearPCMText d) (bitDepthText d ++ "-bit" ++ endianClause d) ↔
      (1 < sampleWordSizeBytes d ∧ sampleWordSizeBytes d < 2147483648)) ∧
    (Contains (linearPCMText d) "-endian" ↔
      (1 < sampleWordSizeBytes d ∧ sampleWordSizeBytes d < 2147483648)) := by
  have hstart : (1 < sampleWordSizeBytes d ∧ sampleWordSizeBytes d < 2147483648) →
      StartsWith (linearPCMText d) (bitDepthText d ++ "-bit" ++ endianClause d) := by
    intro h
    unfold StartsWith linearPCMText
    rw [if_pos h]
    simp [String.data_append, List.append_assoc]
  have hcont : StartsWith (linearPCMText d) (bitDepthText d ++ "-bit" ++ endianClause d) →
      Contains (linearPCMText d) "-endian" := by
    intro h
    unfold StartsWith at h
    unfold Contains
    refine List.IsInfix.trans ?_ h.isInfix
    exact (endianClause_contains d).trans
      ⟨(bitDepthText d).data ++ "-bit".data, [], by simp [String.data_append]⟩
  have hno : ¬ (1 < sampleWordSizeBytes d ∧ sampleWordSizeBytes d < 2147483648) →
      ¬ Contains (linearPCMText d) "-endian" := by
    intro h
    unfold Contains
    rw [linearPCMText_data]
    exact not_infix_of_noRunContains _ digitFree_endian _ (noEndian_runs d h)
  refine ⟨SampleWordSize_eq d, ToString_linearPCM showDouble d hwf hpcm, ⟨?_, hstart⟩,
    ⟨?_, fun h => hcont (hstart h)⟩⟩
  · intro h
    by_contra hc
    exact hno hc (hcont h)
  · intro h
    by_contra hc
    exact hno hc h

theorem endianness_clause_witness :
    cdInput.SampleWordSize = some (sampleWordSizeBytes cdInput) ∧
    StreamDescription.ToString showRate44100 cdInput =
      some (formatHeader showRate44100 cdInput ++ linearPCMText cdInput) ∧
    (StartsWith (linearPCMText cdInput)
        (bitDepthText cdInput ++ "-bit" ++ endianClause cdInput) ↔
      (1 < sampleWordSizeBytes cdInput ∧ sampleWordSizeBytes cdInput < 2147483648)) ∧
    (Contains (linearPCMText cdInput) "-endian" ↔
      (1 < sampleWordSizeBytes cdInput ∧ sampleWordSizeBytes cdInput < 2147483648)) :=
  endianness_clause showRate44100 cdInput (by decide) (by decide)

set_option maxRecDepth 4000 in
theorem wordSizeSignInput_no_endian :
    ¬ Contains "1 Ch @ 44100 Hz, Format: LinearPCM, 16-bitsigned integer, interleaved"
      "-endian" := by
  decide

/-- Claim C4, counterexample. With 2 ^ 31 bytes per frame and one channel the
unsigned word size is `2147483648 > 1`, yet the description has no endianness
clause. -/
theorem endianness_clause_counterexample :
    wordSizeSignInput.WellFormed ∧
    wordSizeSignInput.mFormatID = kAudioFormatLinearPCM ∧
    wordSizeSignInput.SampleWordSize = some 2147483648 ∧
    wordSizeSignInput.ToString showRate44100 =
      some "1 Ch @ 44100 Hz, Format: LinearPCM, 16-bitsigned integer, interleaved" ∧
    ¬ ((∃ s, wordSizeSignInput.ToString showRate44100 = some s ∧ Contains s "-endian") ↔
      ∃ ws, wordSizeSignInput.SampleWordSize = some ws ∧ 1 < ws) := by
  have hs' : wordSizeSignInput.ToString showRate44100 =
      some "1 Ch @ 44100 Hz, Format: LinearPCM, 16-bitsigned integer, interleaved" := by
    decide
  have hnc := wordSizeSignInput_no_endian
  refine ⟨by decide, by decide, by decide, hs', ?_⟩
  intro h
  obtain ⟨s, hs, hc⟩ := h.mpr ⟨2147483648, by decide, by decide⟩
  rw [hs'] at hs
  cases hs
  exact hnc hc

theorem twentyBit_wordSize (d : StreamDescription) (hpcm : d.mFormatID = kAudioFormatLinearPCM)
    (hbits : d.mBitsPerChannel = 20) (hbpf : d.mBytesPerFrame = 2)
    (hch : d.mChannelsPerFrame = 1) :
    sampleWordSizeBytes d = 2 ∧ packednessSignificant d := by
  have hn : interleavedChannelCount d = 1 := by
    unfold interleavedChannelCount
    split
    · exact hch
    · rfl
  have hws : sampleWordSizeBytes d = 2 := by
    unfold sampleWordSizeBytes
    rw [hn, hbpf]
    decide
  refine ⟨hws, hpcm, ?_⟩
  rw [hws, hbits]
  decide

/-- Claim C5, as amended. Packed/unpacked clause: for a well-formed linear-PCM
descriptor the description is the header followed by `linearPCMText`; when the
word size is positive and below `2 ^ 31` (positive as a signed 32-bit `int`)
and packedness is significant, that text has, directly after the sample-type
clause and its separator, `packed in <sampleWordSizeBytes> bytes`, preceded by
`un` exactly when flag bit `0x8` is clear; otherwise it does not contain
`packed in ` at all. With `bitsPerChannel = 20`, `bytesPerFrame = 2` and
`channelsPerFrame = 1` it contains `packed in 2 bytes`. `sampleWordSizeBytes` is
the result of `SampleWordSize` and `packednessSignificant` that of
`PackednessIsSignificant`. -/
theorem packed_clause (showDouble : Nat → String) (d : StreamDescription)
    (hwf : d.WellFormed) (hpcm : d.mFormatID = kAudioFormatLinearPCM) :
    d.SampleWordSize = some (sampleWordSizeBytes d) ∧
    d.PackednessIsSignificant = some (decide (packednessSignificant d)) ∧
    d.ToString showDouble = some (formatHeader showDouble d ++ linearPCMText d) ∧
    ((0 < sampleWordSizeBytes d ∧ sampleWordSizeBytes d < 2147483648 ∧
        packednessSignificant d) →
      linearPCMText d = bitDepthText d ++ "-bit" ++
        (if 1 < sampleWordSizeBytes d then endianClause d ++ ", " else "") ++
        sampleTypeClause d ++ ", " ++
        (if d.mFormatFlags.testBit 3 then "" else "un") ++ "packed in " ++
        showUnsigned (sampleWordSizeBytes d) ++ " bytes" ++
        alignClause d ++ ", " ++ interleaveClause d) ∧
    (Contains (linearPCMText d) ("packed in " ++ showUnsigned (sampleWordSizeBytes d) ++ " bytes")
      ↔ (0 < sampleWordSizeBytes d ∧ sampleWordSizeBytes d < 2147483648 ∧
        packednessSignificant d)) ∧
    (d.mBitsPerChannel = 20 ∧ d.mBytesPerFrame = 2 ∧ d.mChannelsPerFrame = 1 →
      Contains (linearPCMText d) "packed in 2 bytes") := by
  have hpos : (0 < sampleWordSizeBytes d ∧ sampleWordSizeBytes d < 2147483648 ∧
        packednessSignificant d) →
      linearPCMText d = bitDepthText d ++ "-bit" ++
        (if 1 < sampleWordSizeBytes d then endianClause d ++ ", " else "") ++
        sampleTypeClause d ++ ", " ++
        (if d.mFormatFlags.testBit 3 then "" else "un") ++ "packed in " ++
        showUnsigned (sampleWordSizeBytes d) ++ " bytes" ++
        alignClause d ++ ", " ++ interleaveClause d := by
    intro h
    unfold linearPCMText packedClause
    rw [if_pos h]
    by_cases h1 : 1 < sampleWordSizeBytes d
    · rw [if_pos (⟨h1, h.2.1⟩ : 1 < sampleWordSizeBytes d ∧ sampleWordSizeBytes d < 2147483648),
        if_pos h1]
      simp only [String.append_assoc]
    · rw [if_neg (fun hc : 1 < sampleWordSizeBytes d ∧ sampleWordSizeBytes d < 2147483648 =>
        h1 hc.1), if_neg h1]
      simp only [String.append_assoc]
  have hyes : (0 < sampleWordSizeBytes d ∧ sampleWordSizeBytes d < 2147483648 ∧
        packednessSignificant d) →
      Contains (linearPCMText d)
        ("packed in " ++ showUnsigned (sampleWordSizeBytes d) ++ " bytes") := by
    intro h
    unfold Contains
    rw [hpos h]
    refine ⟨(bitDepthText d ++ "-bit" ++
        (if 1 < sampleWordSizeBytes d then endianClause d ++ ", " else "") ++
        sampleTypeClause d ++ ", " ++
        (if d.mFormatFlags.testBit 3 then "" else "un")).data,
      (alignClause d ++ ", " ++ interleaveClause d).data, ?_⟩
    simp only [String.data_append, List.append_assoc]
  have hno : ¬ (0 < sampleWordSizeBytes d ∧ sampleWordSizeBytes d < 2147483648 ∧
        packednessSignificant d) →
      ¬ Contains (linearPCMText d)
        ("packed in " ++ showUnsigned (sampleWordSizeBytes d) ++ " bytes") := by
    intro h hc
    have hsub : "packed in ".data <:+: (linearPCMText d).data := by
      unfold Contains at hc
      refine List.IsInfix.trans ⟨[], (showUnsigned (sampleWordSizeBytes d) ++ " bytes").data, ?_⟩ hc
      simp only [String.data_append, List.nil_append, List.append_assoc]
    rw [linearPCMText_data] at hsub
    exact not_infix_of_noRunContains _ digitFree_packed _ (noPacked_runs d h) hsub
  refine ⟨SampleWordSize_eq d, PackednessIsSignificant_eq d,
    ToString_linearPCM showDouble d hwf hpcm, hpos, ⟨?_, hyes⟩, ?_⟩
  · intro hc
    by_contra h
    exact hno h hc
  · rintro ⟨hb, hf, hch⟩
    obtain ⟨hws, hps⟩ := twentyBit_wordSize d hpcm hb hf hch
    have h := hyes ⟨by omega, by omega, hps⟩
    rw [hws] at h
    exact h

theorem packed_clause_witness :
    linearPCMText twentyBitInput =
      "20-bit little-endian, signed integer, packed in 2 bytes, low-aligned, interleaved" ∧
    Contains (linearPCMText twentyBitInput) "packed in 2 bytes" :=
  ⟨((packed_clause showRate44100 twentyBitInput (by decide) (by decide)).2.2.2.1
      (by decide)).trans (by decide),
   (packed_clause showRate44100 twentyBitInput (by decide) (by decide)).2.2.2.2.2
      (by decide)⟩

set_option maxRecDepth 4000 in
theorem packedSignInput_no_packed :
    ¬ Contains "1 Ch @ 44100 Hz, Format: LinearPCM, 24-bitfloating-point, interleaved"
      "packed in" := by
  decide

/-- Claim C5, counterexample. With `3 * 2 ^ 30` bytes per frame and one channel
the unsigned word size is positive and packedness is significant, yet the
description has no packed/unpacked clause. -/
theorem packed_clause_counterexample :
    packedSignInput.WellFormed ∧
    packedSignInput.mFormatID = kAudioFormatLinearPCM ∧
    packedSignInput.SampleWordSize = some 3221225472 ∧
    packedSignInput.PackednessIsSignificant = some true ∧
    packedSignInput.ToString showRate44100 =
      some "1 Ch @ 44100 Hz, Format: LinearPCM, 24-bitfloating-point, interleaved" ∧
    ¬ ((∃ s, packedSignInput.ToString showRate44100 = some s ∧ Contains s "packed in") ↔
      ((∃ ws, packedSignInput.SampleWordSize = some ws ∧ 0 < ws) ∧
        packedSignInput.PackednessIsSignificant = some true)) := by
  have hs' : packedSignInput.ToString showRate44100 =
      some "1 Ch @ 44100 Hz, Format: LinearPCM, 24-bitfloating-point, interleaved" := by
    decide
  refine ⟨by decide, by decide, by decide, by decide, hs', ?_⟩
  intro h
  obtain ⟨s, hs, hc⟩ := h.mpr ⟨⟨3221225472, by decide, by decide⟩, by decide⟩
  rw [hs'] at hs
  cases hs
  exact packedSignInput_no_packed hc

/-! ## Linear PCM: packedness -/

/-- Claim C6, as amended. Packedness predicate: `PackednessIsSignificant` always
has a result; it is true exactly when `formatID` is the linear-PCM code and the
32-bit product `(sampleWordSizeBytes * 8) mod 2 ^ 32` differs from
`bitsPerChannel`, hence false for every non-PCM descriptor; the reduction is
invisible for word sizes below `2 ^ 29`. -/
theorem PackednessIsSignificant_iff (d : StreamDescription) :
    (d.PackednessIsSignificant = some true ∨ d.PackednessIsSignificant = some false) ∧
    (d.PackednessIsSignificant = some true ↔
      (d.mFormatID = kAudioFormatLinearPCM ∧
        (sampleWordSizeBytes d * 8) % 4294967296 ≠ d.mBitsPerChannel)) ∧
    (d.mFormatID ≠ kAudioFormatLinearPCM → d.PackednessIsSignificant = some false) ∧
    (sampleWordSizeBytes d < 536870912 →
      (d.PackednessIsSignificant = some true ↔
        (d.mFormatID = kAudioFormatLinearPCM ∧
          sampleWordSizeBytes d * 8 ≠ d.mBitsPerChannel))) := by
  have hiff : d.PackednessIsSignificant = some true ↔
      (d.mFormatID = kAudioFormatLinearPCM ∧
        (sampleWordSizeBytes d * 8) % 4294967296 ≠ d.mBitsPerChannel) := by
    rw [PackednessIsSignificant_eq]
    simp [packednessSignificant]
  refine ⟨?_, hiff, ?_, ?_⟩
  · rw [PackednessIsSignificant_eq]
    by_cases h : packednessSignificant d <;> simp [h]
  · intro h
    rw [PackednessIsSignificant_eq]
    simp [packednessSignificant, h]
  · intro hlt
    rw [hiff, Nat.mod_eq_of_lt (by omega)]

theorem PackednessIsSignificant_iff_witness :
    cdInput.PackednessIsSignificant = some false ∧
    losslessInput.PackednessIsSignificant = some false ∧
    twentyBitInput.PackednessIsSignificant = some true :=
  ⟨by
      have h := (PackednessIsSignificant_iff cdInput).2.2.2 (by decide)
      rcases (PackednessIsSignificant_iff cdInput).1 with ht | hf
      · exact absurd (h.mp ht).2 (by decide)
      · exact hf,
   (PackednessIsSignificant_iff losslessInput).2.2.1 (by decide),
   ((PackednessIsSignificant_iff twentyBitInput).2.2.2 (by decide)).mpr (by decide)⟩

/-- Claim C6, counterexample. With a word size of `2 ^ 29 + 2` bytes the integer
product `sampleWordSizeBytes * 8` is `4294967312`, different from
`bitsPerChannel = 16`, yet `PackednessIsSignificant` is false: the shift wraps
to `16`. -/
theorem PackednessIsSignificant_counterexample :
    shiftOverflowInput.WellFormed ∧
    shiftOverflowInput.SampleWordSize = some 536870914 ∧
    536870914 * 8 ≠ shiftOverflowInput.mBitsPerChannel ∧
    shiftOverflowInput.PackednessIsSignificant = some false ∧
    ¬ (shiftOverflowInput.PackednessIsSignificant = some true ↔
      (shiftOverflowInput.mFormatID = kAudioFormatLinearPCM ∧
        ∃ ws, shiftOverflowInput.SampleWordSize = some ws ∧
          ws * 8 ≠ shiftOverflowInput.mBitsPerChannel)) := by
  refine ⟨by decide, by decide, by decide, by decide, ?_⟩
  intro h
  have := h.mpr ⟨by decide, 536870914, by decide, by decide⟩
  revert this
  decide

/-! ## Linear PCM: zero word size, sample type, bit depth -/

theorem interleavedChannelCount_pcm (d : StreamDescription)
    (hpcm : d.mFormatID = kAudioFormatLinearPCM) :
    interleavedChannelCount d =
      if d.mFormatFlags.testBit 5 = false then d.mChannelsPerFrame else 1 := by
  unfold interleavedChannelCount
  simp [hpcm]

/-- Claim C8. Zero word size suppresses clauses: for a well-formed linear-PCM
descriptor the word size is `0` exactly when `bytesPerFrame = 0`, or the
descriptor is interleaved with `channelsPerFrame = 0`, or it is interleaved with
`bytesPerFrame < channelsPerFrame`; then the description is the header followed
by exactly `<depth>-bit`, the sample-type clause, `, ` and the interleaving
clause, with no endianness, packed/unpacked or alignment clause. -/
theorem zero_wordSize (showDouble : Nat → String) (d : StreamDescription)
    (hwf : d.WellFormed) (hpcm : d.mFormatID = kAudioFormatLinearPCM) :
    (d.SampleWordSize = some 0 ↔
      (d.mBytesPerFrame = 0 ∨
        (d.mFormatFlags.testBit 5 = false ∧ d.mChannelsPerFrame = 0) ∨
        (d.mFormatFlags.testBit 5 = false ∧ d.mBytesPerFrame < d.mChannelsPerFrame))) ∧
    (d.SampleWordSize = some 0 →
      d.ToString showDouble = some (formatHeader showDouble d ++ bitDepthText d ++ "-bit" ++
        (if d.mFormatFlags.testBit 0 then "floating-point"
          else if d.mFormatFlags.testBit 2 then "signed integer" else "unsigned integer") ++
        ", " ++
        (if d.mFormatFlags.testBit 5 then "non-interleaved" else "interleaved"))) := by
  rw [SampleWordSize_eq, Option.some_inj]
  constructor
  · unfold sampleWordSizeBytes
    rw [interleavedChannelCount_pcm d hpcm]
    by_cases hb : d.mFormatFlags.testBit 5 = false
    · simp only [hb, if_true, true_and]
      by_cases hc : 0 < d.mBytesPerFrame ∧ 0 < d.mChannelsPerFrame
      · rw [if_pos hc, Nat.div_eq_zero_iff hc.2]
        omega
      · rw [if_neg hc]
        simp only [true_iff]
        omega
    · simp only [hb, if_false, false_and, or_false]
      by_cases hc : 0 < d.mBytesPerFrame
      · simp only [hc, Nat.div_one, Nat.lt_one_iff, if_true, and_self, pos_of_gt]
        simp
      · simp only [hc, false_and, if_false, true_iff]
        omega
  · intro h0
    rw [ToString_linearPCM showDouble d hwf hpcm]
    have c1 : ¬ (1 < sampleWordSizeBytes d ∧ sampleWordSizeBytes d < 2147483648) := by omega
    have c0 : ¬ (0 < sampleWordSizeBytes d ∧ sampleWordSizeBytes d < 2147483648 ∧
        packednessSignificant d) := fun h => by omega
    unfold linearPCMText sampleTypeClause interleaveClause
    rw [if_neg c1, if_neg c0]
    simp only [String.append_assoc, String.empty_append]

theorem zero_wordSize_witness :
    zeroFrameInput.SampleWordSize = some 0 ∧
    zeroFrameInput.ToString showRate44100 =
      some "2 Ch @ 44100 Hz, Format: LinearPCM, 32-bitfloating-point, non-interleaved" :=
  ⟨(zero_wordSize showRate44100 zeroFrameInput (by decide) (by decide)).1.mpr
      (Or.inl (by decide)),
   ((zero_wordSize showRate44100 zeroFrameInput (by decide) (by decide)).2
      (by decide)).trans (by decide)⟩

theorem suffix_append_of_empty_or_suffix (a p t : List Char) (w : List Char)
    (hp : p = [] ∨ [',', ' '] <:+ p) (ha : [',', ' '] <:+ a) (hw : w = [',', ' '] ++ t) :
    w <:+ a ++ (p ++ t) := by
  subst hw
  rcases hp with rfl | ⟨q, rfl⟩
  · obtain ⟨b, rfl⟩ := ha
    exact ⟨b, by simp⟩
  · exact ⟨a ++ q, by simp⟩

/-- Claim C9. Sample-type clause and last clause: for a well-formed linear-PCM
descriptor the description is the header, `<depth>-bit`, an optional endianness
clause, then the sample-type clause (`floating-point` when bit `0x1` is set
whatever bit `0x4` is, otherwise `signed integer` for a set bit `0x4` and
`unsigned integer` for a clear one), `, `, optional clauses each closed by `, `,
and last `non-interleaved` for a set bit `0x20`, `interleaved` for a clear one;
in the latter case the text does not end with `non-interleaved`. -/
theorem sampleType_and_interleave (showDouble : Nat → String) (d : StreamDescription)
    (hwf : d.WellFormed) (hpcm : d.mFormatID = kAudioFormatLinearPCM) :
    ∃ e p s : String,
      (e = "" ∨ e = " big-endian, " ∨ e = " little-endian, ") ∧
      (p = "" ∨ EndsWith p ", ") ∧
      d.ToString showDouble = some s ∧
      s = formatHeader showDouble d ++ bitDepthText d ++ "-bit" ++ e ++
        (if d.mFormatFlags.testBit 0 then "floating-point"
          else if d.mFormatFlags.testBit 2 then "signed integer" else "unsigned integer") ++
        ", " ++ p ++
        (if d.mFormatFlags.testBit 5 then "non-interleaved" else "interleaved") ∧
      (d.mFormatFlags.testBit 5 = true → EndsWith s ", non-interleaved") ∧
      (d.mFormatFlags.testBit 5 = false →
        EndsWith s ", interleaved" ∧ ¬ EndsWith s "non-interleaved") := by
  have he : ∀ c : Prop, ∀ _ : Decidable c,
      ((if c then endianClause d ++ ", " else "") = "" ∨
        (if c then endianClause d ++ ", " else "") = " big-endian, " ∨
        (if c then endianClause d ++ ", " else "") = " little-endian, ") := by
    intro c _
    by_cases hc : c
    · rw [if_pos hc]
      unfold endianClause
      cases d.mFormatFlags.testBit 1
      · exact Or.inr (Or.inr (by decide))
      · exact Or.inr (Or.inl (by decide))
    · rw [if_neg hc]
      exact Or.inl rfl
  have hp : ∀ c : Prop, ∀ _ : Decidable c,
      ((if c then packedClause d ++ alignClause d ++ ", " else "") = "" ∨
        EndsWith (if c then packedClause d ++ alignClause d ++ ", " else "") ", ") := by
    intro c _
    by_cases hc : c
    · rw [if_pos hc]
      exact Or.inr ⟨(packedClause d ++ alignClause d).data, by simp [String.data_append]⟩
    · rw [if_neg hc]
      exact Or.inl rfl
  have hdata : ∀ t : String, (formatHeader showDouble d ++ bitDepthText d ++ "-bit" ++
        (if 1 < sampleWordSizeBytes d ∧ sampleWordSizeBytes d < 2147483648
          then endianClause d ++ ", " else "") ++ sampleTypeClause d ++ ", " ++
        (if 0 < sampleWordSizeBytes d ∧ sampleWordSizeBytes d < 2147483648 ∧
            packednessSignificant d
          then packedClause d ++ alignClause d ++ ", " else "") ++ t).data =
      (formatHeader showDouble d ++ bitDepthText d ++ "-bit" ++
        (if 1 < sampleWordSizeBytes d ∧ sampleWordSizeBytes d < 2147483648
          then endianClause d ++ ", " else "") ++ sampleTypeClause d ++ ", ").data ++
      ((if 0 < sampleWordSizeBytes d ∧ sampleWordSizeBytes d < 2147483648 ∧
            packednessSignificant d
          then packedClause d ++ alignClause d ++ ", " else "").data ++ t.data) := by
    intro t
    simp only [String.data_append, List.append_assoc]
  have hends : ∀ t w : String, w.data = [',', ' '] ++ t.data →
      EndsWith (formatHeader showDouble d ++ bitDepthText d ++ "-bit" ++
        (if 1 < sampleWordSizeBytes d ∧ sampleWordSizeBytes d < 2147483648
          then endianClause d ++ ", " else "") ++ sampleTypeClause d ++ ", " ++
        (if 0 < sampleWordSizeBytes d ∧ sampleWordSizeBytes d < 2147483648 ∧
            packednessSignificant d
          then packedClause d ++ alignClause d ++ ", " else "") ++ t) w := by
    intro t w hw
    unfold EndsWith
    rw [hdata t]
    refine suffix_append_of_empty_or_suffix _ _ t.data w.data ?_ ?_ hw
    · rcases hp (0 < sampleWordSizeBytes d ∧ sampleWordSizeBytes d < 2147483648 ∧
          packednessSignificant d) inferInstance with h | h
      · exact Or.inl (by rw [h])
      · exact Or.inr h
    · exact ⟨_, by simp only [String.data_append]; rfl⟩
  have hs : formatHeader showDouble d ++ linearPCMText d =
      formatHeader showDouble d ++ bitDepthText d ++ "-bit" ++
        (if 1 < sampleWordSizeBytes d ∧ sampleWordSizeBytes d < 2147483648
          then endianClause d ++ ", " else "") ++ sampleTypeClause d ++ ", " ++
        (if 0 < sampleWordSizeBytes d ∧ sampleWordSizeBytes d < 2147483648 ∧
            packednessSignificant d
          then packedClause d ++ alignClause d ++ ", " else "") ++ interleaveClause d := by
    unfold linearPCMText
    simp only [String.append_assoc]
  refine ⟨(if 1 < sampleWordSizeBytes d ∧ sampleWordSizeBytes d < 2147483648
      then endianClause d ++ ", " else ""),
    (if 0 < sampleWordSizeBytes d ∧ sampleWordSizeBytes d < 2147483648 ∧
      packednessSignificant d then packedClause d ++ alignClause d ++ ", " else ""),
    formatHeader showDouble d ++ linearPCMText d,
    he _ _, hp _ _, ToString_linearPCM showDouble d hwf hpcm, ?_, ?_, ?_⟩
  · rw [hs]
    unfold sampleTypeClause interleaveClause
    rfl
  · intro h5
    have hI : interleaveClause d = "non-interleaved" := by
      unfold interleaveClause
      rw [if_pos h5]
    have hw : ", non-interleaved".data = [',', ' '] ++ "non-interleaved".data := by decide
    rw [hs, hI]
    exact hends _ _ hw
  · intro h5
    have hI : interleaveClause d = "interleaved" := by
      unfold interleaveClause
      rw [h5]
      rfl
    have hw : ", interleaved".data = [',', ' '] ++ "interleaved".data := by decide
    rw [hs, hI]
    have h1 := hends _ _ hw
    refine ⟨h1, fun h2 => ?_⟩
    have hle : ", interleaved".data.length ≤ "non-interleaved".data.length := by decide
    have h3 : ", interleaved".data <:+ "non-interleaved".data :=
      List.suffix_of_suffix_length_le h1 h2 hle
    revert h3
    decide

theorem sampleType_and_interleave_witness :
    ∃ e p s : String,
      (e = "" ∨ e = " big-endian, " ∨ e = " little-endian, ") ∧
      (p = "" ∨ EndsWith p ", ") ∧
      cdInput.ToString showRate44100 = some s ∧
      s = formatHeader showRate44100 cdInput ++ bitDepthText cdInput ++ "-bit" ++ e ++
        (if cdInput.mFormatFlags.testBit 0 then "floating-point"
          else if cdInput.mFormatFlags.testBit 2 then "signed integer"
          else "unsigned integer") ++
        ", " ++ p ++
        (if cdInput.mFormatFlags.testBit 5 then "non-interleaved" else "interleaved") ∧
      (cdInput.mFormatFlags.testBit 5 = true → EndsWith s ", non-interleaved") ∧
      (cdInput.mFormatFlags.testBit 5 = false →
        EndsWith s ", interleaved" ∧ ¬ EndsWith s "non-interleaved") :=
  sampleType_and_interleave showRate44100 cdInput (by decide) (by decide)

/-- Claim C10, as amended. Bit-depth rendering: for a well-formed linear-PCM
descriptor, with `fractionBits = (formatFlags AND 0x1F80) >> 7` (at most `63`),
the text after the header starts with
`<(bitsPerChannel - fractionBits) mod 2 ^ 32>.<fractionBits>-bit` when
`fractionBits > 0` and with `<bitsPerChannel>-bit` when `fractionBits = 0`, all
numbers in decimal; the integer part is `bitsPerChannel - fractionBits` whenever
`fractionBits ≤ bitsPerChannel`. -/
theorem bitDepth_rendering (showDouble : Nat → String) (d : StreamDescription)
    (hwf : d.WellFormed) (hpcm : d.mFormatID = kAudioFormatLinearPCM) :
    fractionBits d = (d.mFormatFlags &&& 0x1F80) >>> 7 ∧ fractionBits d ≤ 63 ∧
    (0 < fractionBits d → ∃ rest : String,
      d.ToString showDouble = some (formatHeader showDouble d ++
        showUnsigned ((d.mBitsPerChannel + 4294967296 - fractionBits d) % 4294967296) ++ "." ++
        showUnsigned (fractionBits d) ++ "-bit" ++ rest)) ∧
    (fractionBits d = 0 → ∃ rest : String,
      d.ToString showDouble = some (formatHeader showDouble d ++
        showUnsigned d.mBitsPerChannel ++ "-bit" ++ rest)) ∧
    (fractionBits d ≤ d.mBitsPerChannel →
      (d.mBitsPerChannel + 4294967296 - fractionBits d) % 4294967296 =
        d.mBitsPerChannel - fractionBits d) := by
  have hbits : d.mBitsPerChannel < 4294967296 := by
    have := hwf.2.2.2.2.2.2.2.1
    simpa using this
  refine ⟨rfl, fractionBits_le d, ?_, ?_, ?_⟩
  · intro hfr
    refine ⟨(if 1 < sampleWordSizeBytes d ∧ sampleWordSizeBytes d < 2147483648
        then endianClause d ++ ", " else "") ++ sampleTypeClause d ++ ", " ++
      (if 0 < sampleWordSizeBytes d ∧ sampleWordSizeBytes d < 2147483648 ∧
          packednessSignificant d
        then packedClause d ++ alignClause d ++ ", " else "") ++ interleaveClause d, ?_⟩
    rw [ToString_linearPCM showDouble d hwf hpcm]
    unfold linearPCMText bitDepthText
    rw [if_pos hfr]
    simp only [String.append_assoc]
  · intro hfr
    refine ⟨(if 1 < sampleWordSizeBytes d ∧ sampleWordSizeBytes d < 2147483648
        then endianClause d ++ ", " else "") ++ sampleTypeClause d ++ ", " ++
      (if 0 < sampleWordSizeBytes d ∧ sampleWordSizeBytes d < 2147483648 ∧
          packednessSignificant d
        then packedClause d ++ alignClause d ++ ", " else "") ++ interleaveClause d, ?_⟩
    rw [ToString_linearPCM showDouble d hwf hpcm]
    unfold linearPCMText bitDepthText
    rw [if_neg (by omega)]
    simp only [String.append_assoc]
  · intro hle
    omega

theorem bitDepth_rendering_witness :
    (∃ rest : String, cdInput.ToString showRate44100 =
      some (formatHeader showRate44100 cdInput ++ showUnsigned 16 ++ "-bit" ++ rest)) ∧
    (∃ rest : String, fractionWrapInput.ToString showRate44100 =
      some (formatHeader showRate44100 fractionWrapInput ++ showUnsigned 4294967292 ++ "." ++
        showUnsigned 12 ++ "-bit" ++ rest)) :=
  ⟨(bitDepth_rendering showRate44100 cdInput (by decide) (by decide)).2.2.2.1 (by decide),
   (bitDepth_rendering showRate44100 fractionWrapInput (by decide) (by decide)).2.2.1
     (by decide)⟩

set_option maxRecDepth 4000 in
theorem fractionWrapInput_not_signed :
    ¬ StartsWith "2 Ch @ 44100 Hz, Format: LinearPCM, 4294967292.12-bitsigned integer, interleaved"
      (formatHeader showRate44100 fractionWrapInput ++ showInt ((8 : Int) - 12) ++ "." ++
        showUnsigned 12 ++ "-bit") := by
  decide

/-- Claim C10, counterexample. With `bitsPerChannel = 8` and twelve fraction
bits the description is
`2 Ch @ 44100 Hz, Format: LinearPCM, 4294967292.12-bitsigned integer, interleaved`:
the text after the header starts with `4294967292.12-bit`, not with
`<8 - 12>.12-bit`, whether the difference is read as `-4` or cut off at `0`. -/
theorem bitDepth_rendering_counterexample :
    fractionWrapInput.WellFormed ∧
    fractionWrapInput.mFormatID = kAudioFormatLinearPCM ∧
    (fractionWrapInput.mFormatFlags &&& 0x1F80) >>> 7 = 12 ∧
    fractionWrapInput.mBitsPerChannel = 8 ∧
    fractionWrapInput.ToString showRate44100 =
      some ("2 Ch @ 44100 Hz, Format: LinearPCM, " ++
        "4294967292.12-bitsigned integer, interleaved") ∧
    ¬ StartsWith "4294967292.12-bitsigned integer, interleaved"
      (showUnsigned (8 - 12) ++ "." ++ showUnsigned 12 ++ "-bit") ∧
    ¬ (∃ rest : String, fractionWrapInput.ToString showRate44100 =
      some (formatHeader showRate44100 fractionWrapInput ++
        showInt ((fractionWrapInput.mBitsPerChannel : Int) - 12) ++ "." ++ showUnsigned 12 ++
        "-bit" ++ rest)) := by
  have hs : fractionWrapInput.ToString showRate44100 =
      some "2 Ch @ 44100 Hz, Format: LinearPCM, 4294967292.12-bitsigned integer, interleaved" := by
    decide
  refine ⟨by decide, by decide, by decide, by decide, by decide, ?_, ?_⟩
  · unfold StartsWith
    decide
  · rintro ⟨rest, h⟩
    rw [hs] at h
    have h' := Option.some.inj h
    apply fractionWrapInput_not_signed
    unfold StartsWith
    rw [h']
    exact ⟨rest.data, by simp only [String.data_append]; rfl⟩

/-! ## The other format families -/

theorem ToString_other (showDouble : Nat → String) (d : StreamDescription)
    (hpcm : d.mFormatID ≠ kAudioFormatLinearPCM)
    (hlossless : d.mFormatID ≠ kAudioFormatAppleLossless) :
    d.ToString showDouble = some
      (showUnsigned d.mChannelsPerFrame ++ " Ch @ " ++ showDouble d.mSampleRate ++
        " Hz, Format: " ++ OSTypeToString d.mFormatID kAudioFormat ++ ", " ++
        showUnsigned d.mBitsPerChannel ++ "bits/channel, " ++
        showUnsigned d.mBytesPerPacket ++ "bytes/packet, " ++
        showUnsigned d.mFramesPerPacket ++ "frames/packet, " ++
        showUnsigned d.mBytesPerFrame ++ "bytes/frame") := by
  unfold StreamDescription.ToString
  simp only [if_neg hpcm, if_neg hlossless, formatHeader_tokens, Option.pure_def]
  unfold formatHeader StreamDescription.eol
  have h1 : "bits/channel, " = "bits/channel" ++ ", " := by decide
  have h2 : "bytes/packet, " = "bytes/packet" ++ ", " := by decide
  have h3 : "frames/packet, " = "frames/packet" ++ ", " := by decide
  have h4 : " Hz, Format: " = " Hz, " ++ "Format: " := by decide
  rw [h1, h2, h3, h4]
  simp only [String.append_assoc]

/-- Claim C11. Other format families: for a descriptor whose `formatID` is
neither the linear-PCM code nor the Apple-Lossless code the whole description is
`<channelsPerFrame> Ch @ <sampleRate text> Hz, Format: <resolved formatID>, `
followed by `<bitsPerChannel>bits/channel, <bytesPerPacket>bytes/packet, `
`<framesPerPacket>frames/packet, <bytesPerFrame>bytes/frame`, the four fields in
unsigned decimal, and it is the same for every value of `formatFlags`. -/
theorem ToString_otherFamilies (showDouble : Nat → String) (d : StreamDescription)
    (hpcm : d.mFormatID ≠ kAudioFormatLinearPCM)
    (hlossless : d.mFormatID ≠ kAudioFormatAppleLossless) :
    d.ToString showDouble = some
      (showUnsigned d.mChannelsPerFrame ++ " Ch @ " ++ showDouble d.mSampleRate ++
        " Hz, Format: " ++ OSTypeToString d.mFormatID kAudioFormat ++ ", " ++
        showUnsigned d.mBitsPerChannel ++ "bits/channel, " ++
        showUnsigned d.mBytesPerPacket ++ "bytes/packet, " ++
        showUnsigned d.mFramesPerPacket ++ "frames/packet, " ++
        showUnsigned d.mBytesPerFrame ++ "bytes/frame") ∧
    (∀ flags : Nat,
      StreamDescription.ToString showDouble { d with mFormatFlags := flags } =
        d.ToString showDouble) := by
  refine ⟨ToString_other showDouble d hpcm hlossless, fun flags => ?_⟩
  rw [ToString_other showDouble d hpcm hlossless,
    ToString_other showDouble { d with mFormatFlags := flags } hpcm hlossless]

theorem ToString_otherFamilies_witness :
    aacInput.ToString showRate44100 =
      some ("2 Ch @ 44100 Hz, Format: MPEG4AAC, 0bits/channel, 0bytes/packet, " ++
        "1024frames/packet, 0bytes/frame") ∧
    StreamDescription.ToString showRate44100 { aacInput with mFormatFlags := 0 } =
      aacInput.ToString showRate44100 :=
  ⟨(ToString_otherFamilies showRate44100 aacInput (by decide) (by decide)).1.trans
      (by decide),
   (ToString_otherFamilies showRate44100 aacInput (by decide) (by decide)).2 0⟩

/-! ## `FourCC`: the two forms and injectivity -/

theorem FourCC_repr_eq (c : Nat) (hc : c < 2 ^ 32) :
    (FourCC.new c).repr =
      if allPrintable c then
        quotedForm (c / 16777216 % 256) (c / 65536 % 256) (c / 256 % 256) (c % 256)
      else hexForm c := by
  have hr : (List.range 4).map (bigePrnt c) =
      [c / 16777216 % 256, c / 65536 % 256, c / 256 % 256, c % 256] := by
    simp [List.range, List.range.loop, bigePrnt]
  by_cases hp : allPrintable c
  · rw [if_pos hp]
    have hany : ((List.range 4).map (bigePrnt c)).any (fun b => !isprint b) = false := by
      rw [hr]
      obtain ⟨h0, h1, h2, h3⟩ := hp
      simp only [printableAscii] at h0 h1 h2 h3
      simp [isprint, h0, h1, h2, h3]
    unfold FourCC.new
    simp only [hany]
    simp [hr, quotedForm]
  · rw [if_neg hp]
    have hany : ((List.range 4).map (bigePrnt c)).any (fun b => !isprint b) = true := by
      rw [hr]
      simp only [allPrintable, printableAscii] at hp
      simp only [List.any_cons, List.any_nil, isprint, Bool.or_false, Bool.or_eq_true,
        Bool.not_eq_true', decide_eq_false_iff_not]
      tauto
    unfold FourCC.new
    simp only [hany]
    simp [ToHex_four c hc]

theorem toNat_ofNat_byte (b : Nat) (hb : b < 256) : (Char.ofNat b).toNat = b := by
  have hv : b.isValidChar := Or.inl (by omega)
  simp only [Char.ofNat, hv, dite_true, Char.ofNatAux, Char.toNat]
  rfl

theorem ofNat_byte_inj (a b : Nat) (ha : a < 256) (hb : b < 256)
    (h : Char.ofNat a = Char.ofNat b) : a = b := by
  have := congrArg Char.toNat h
  rwa [toNat_ofNat_byte a ha, toNat_ofNat_byte b hb] at this

theorem hexDigitUpper_inj : ∀ a : Nat, a < 16 → ∀ b : Nat, b < 16 →
    hexDigitUpper a = hexDigitUpper b → a = b := by
  decide

theorem quotedForm_inj (a0 a1 a2 a3 b0 b1 b2 b3 : Nat)
    (ha0 : a0 < 256) (ha1 : a1 < 256) (ha2 : a2 < 256) (ha3 : a3 < 256)
    (hb0 : b0 < 256) (hb1 : b1 < 256) (hb2 : b2 < 256) (hb3 : b3 < 256)
    (h : quotedForm a0 a1 a2 a3 = quotedForm b0 b1 b2 b3) :
    a0 = b0 ∧ a1 = b1 ∧ a2 = b2 ∧ a3 = b3 := by
  have hd := congrArg String.data h
  simp only [quotedForm, String.data_append, List.cons_append, List.nil_append,
    List.cons.injEq, List.append_cancel_right_eq, and_true, true_and] at hd
  obtain ⟨h0, h1, h2, h3⟩ := hd
  exact ⟨ofNat_byte_inj _ _ ha0 hb0 h0, ofNat_byte_inj _ _ ha1 hb1 h1,
    ofNat_byte_inj _ _ ha2 hb2 h2, ofNat_byte_inj _ _ ha3 hb3 h3⟩

theorem hexForm_inj (c1 c2 : Nat) (h1 : c1 < 2 ^ 32) (h2 : c2 < 2 ^ 32)
    (h : hexForm c1 = hexForm c2) : c1 = c2 := by
  have hd := congrArg String.data h
  simp only [hexForm, String.data_append, List.cons_append, List.nil_append,
    List.cons.injEq, List.append_cancel_left_eq, and_true, true_and] at hd
  obtain ⟨e7, e6, e5, e4, e3, e2, e1, e0⟩ := hd
  have m := fun (a b : Nat) (ha : a < 16) (hb : b < 16) => hexDigitUpper_inj a ha b hb
  have f7 := m _ _ (Nat.mod_lt _ (by norm_num)) (Nat.mod_lt _ (by norm_num)) e7
  have f6 := m _ _ (Nat.mod_lt _ (by norm_num)) (Nat.mod_lt _ (by norm_num)) e6
  have f5 := m _ _ (Nat.mod_lt _ (by norm_num)) (Nat.mod_lt _ (by norm_num)) e5
  have f4 := m _ _ (Nat.mod_lt _ (by norm_num)) (Nat.mod_lt _ (by norm_num)) e4
  have f3 := m _ _ (Nat.mod_lt _ (by norm_num)) (Nat.mod_lt _ (by norm_num)) e3
  have f2 := m _ _ (Nat.mod_lt _ (by norm_num)) (Nat.mod_lt _ (by norm_num)) e2
  have f1 := m _ _ (Nat.mod_lt _ (by norm_num)) (Nat.mod_lt _ (by norm_num)) e1
  have f0 := m _ _ (Nat.mod_lt _ (by norm_num)) (Nat.mod_lt _ (by norm_num)) e0
  norm_num at h1 h2 f7 f6 f5 f4 f3 f2 f1
  omega

theorem quotedForm_ne_hexForm (b0 b1 b2 b3 c : Nat) :
    quotedForm b0 b1 b2 b3 ≠ hexForm c := by
  intro h
  have hd := congrArg String.length h
  simp [quotedForm, hexForm, String.length] at hd

/-- Claim C18. FourCC rendering is injective: two 32-bit codes with the same
text are equal, since the quoted form determines the four bytes, the
hexadecimal form determines the value, and a quoted form is never a hexadecimal
form. -/
theorem FourCC_repr_injective (c1 c2 : Nat) (h1 : c1 < 2 ^ 32) (h2 : c2 < 2 ^ 32)
    (h : (FourCC.new c1).repr = (FourCC.new c2).repr) : c1 = c2 := by
  rw [FourCC_repr_eq c1 h1, FourCC_repr_eq c2 h2] at h
  have hb : ∀ n : Nat, n % 256 < 256 := fun n => Nat.mod_lt _ (by norm_num)
  by_cases p1 : allPrintable c1 <;> by_cases p2 : allPrintable c2
  · rw [if_pos p1, if_pos p2] at h
    obtain ⟨e0, e1, e2, e3⟩ := quotedForm_inj _ _ _ _ _ _ _ _ (hb _) (hb _) (hb _) (hb _)
      (hb _) (hb _) (hb _) (hb _) h
    norm_num at h1 h2
    omega
  · rw [if_pos p1, if_neg p2] at h
    exact absurd h (quotedForm_ne_hexForm _ _ _ _ _)
  · rw [if_neg p1, if_pos p2] at h
    exact absurd h.symm (quotedForm_ne_hexForm _ _ _ _ _)
  · rw [if_neg p1, if_neg p2] at h
    exact hexForm_inj c1 c2 h1 h2 h

theorem FourCC_repr_injective_witness :
    (FourCC.new 0x61646732).repr ≠ (FourCC.new 0x61646733).repr ∧
    (FourCC.new 0x00000100).repr ≠ (FourCC.new 0x00000001).repr :=
  ⟨fun h => absurd (FourCC_repr_injective 0x61646732 0x61646733 (by decide) (by decide) h)
      (by decide),
   fun h => absurd (FourCC_repr_injective 0x00000100 0x00000001 (by decide) (by decide) h)
      (by decide)⟩

/-! ## Repeated assignments to a table -/

theorem mem_of_find_eq_some (m : OSTypeToStringMap) (type : OSType) (label : String)
    (h : m.find type = some label) : (type, label) ∈ m := by
  induction m with
  | nil => simp [OSTypeToStringMap.find] at h
  | cons e rest ih =>
    obtain ⟨k, v⟩ := e
    unfold OSTypeToStringMap.find at h
    by_cases hk : k = type
    · rw [if_pos hk] at h
      cases h
      subst hk
      exact List.mem_cons_self _ _
    · rw [if_neg hk] at h
      exact List.mem_cons_of_mem _ (ih h)

theorem FourCC_repr_head (c : Nat) :
    ∃ t : List Char, (FourCC.new c).repr.data = "0".data ++ t ∨
      (FourCC.new c).repr.data = "'".data ++ t := by
  by_cases hany : ((List.range 4).map (bigePrnt c)).any (fun b => !isprint b) = true
  · refine ⟨"x".data ++ padLeft (2 * 4) '0' (hexDigits c), Or.inl ?_⟩
    unfold FourCC.new
    simp only [hany, if_true, ToHex, String.data_append]
    rfl
  · refine ⟨((List.range 4).map (bigePrnt c)).map Char.ofNat ++ "'".data, Or.inr ?_⟩
    unfold FourCC.new
    simp only [hany, if_false, String.data_append, List.append_assoc]
    rfl

theorem subType_labels_ne_TimePitch :
    ∀ e ∈ kAudioUnitSubType, e.2 ≠ "TimePitch" := by
  decide

/-- Claim C19. Duplicate table keys resolve to the last assignment: in the
unit-subtype table the code `'tmpt'` (`0x746D7074`) is assigned `TimePitch` and
later `Pitch`; `OSTypeToString` gives `Pitch` for it and gives `TimePitch` for no
code at all; in the unit-type table two assignments to one key always carry the
same label, which is the label the key resolves to. -/
theorem duplicate_keys :
    fourcc "tmpt" = 0x746D7074 ∧
    unitSubTypeStmts.get? 15 = some (fourcc "tmpt", "TimePitch") ∧
    unitSubTypeStmts.get? 31 = some (fourcc "tmpt", "Pitch") ∧
    OSTypeToString (fourcc "tmpt") kAudioUnitSubType = "Pitch" ∧
    (∀ code : Nat, OSTypeToString code kAudioUnitSubType ≠ "TimePitch") ∧
    (∀ e1 ∈ unitTypeStmts, ∀ e2 ∈ unitTypeStmts, e1.1 = e2.1 → e1.2 = e2.2) ∧
    (∀ e ∈ unitTypeStmts, OSTypeToString e.1 kAudioUnitType = e.2) := by
  refine ⟨by decide, by decide, by decide, by decide, ?_, by decide, by decide⟩
  intro code h
  unfold OSTypeToString at h
  cases hf : kAudioUnitSubType.find code with
  | some label =>
    rw [hf] at h
    exact subType_labels_ne_TimePitch (code, label)
      (mem_of_find_eq_some _ _ _ hf) h
  | none =>
    rw [hf] at h
    obtain ⟨t, ht | ht⟩ := FourCC_repr_head code
    · have := congrArg String.data h
      rw [ht] at this
      revert this
      simp
    · have := congrArg String.data h
      rw [ht] at this
      revert this
      simp

theorem duplicate_keys_witness :
    OSTypeToString 0x746D7074 kAudioUnitSubType ≠ "TimePitch" ∧
    OSTypeToString (fourcc "auou") kAudioUnitType = "Output" :=
  ⟨duplicate_keys.2.2.2.2.1 0x746D7074,
   duplicate_keys.2.2.2.2.2.2 (fourcc "auou", "Output") (by decide)⟩

/-! ## Component descriptions -/

/-- An occurrence of a pattern does not cross a character the pattern lacks. -/
theorem infix_char_split (p : List Char) (c : Char) (hcp : c ∉ p) (B : List Char) :
    ∀ A : List Char, p <:+: A ++ c :: B → p <:+: A ∨ p <:+: B := by
  intro A
  induction A with
  | nil =>
    intro h
    rw [List.nil_append, List.infix_cons_iff] at h
    rcases h with h | h
    · rcases List.prefix_cons_iff.mp h with rfl | ⟨t, rfl, _⟩
      · exact Or.inl List.nil_infix
      · exact absurd (List.mem_cons_self c t) hcp
    · exact Or.inr h
  | cons a A ih =>
    intro h
    rw [List.cons_append, List.infix_cons_iff] at h
    rcases h with h | h
    · have hX : a :: A <+: a :: (A ++ c :: B) := ⟨c :: B, by simp⟩
      rcases List.prefix_or_prefix_of_prefix h hX with h1 | h1
      · exact Or.inl h1.isInfix
      · obtain ⟨t, rfl⟩ := h1
        have ht : t <+: c :: B := by
          have : (a :: A) ++ t <+: (a :: A) ++ (c :: B) := by simpa using h
          exact (List.prefix_append_right_inj _).mp this
        rcases List.prefix_cons_iff.mp ht with rfl | ⟨t', rfl, _⟩
        · exact Or.inl (by simp)
        · exact absurd (by simp) hcp
    · rcases ih h with h1 | h1
      · exact Or.inl (List.infix_cons h1)
      · exact Or.inr h1

theorem hexDigitUpper_not_lags : ∀ a : Nat, a < 16 → hexDigitUpper a ∉ "lags:".data := by
  decide

theorem labels_no_lags :
    (∀ e ∈ kAudioUnitManufacturer, ¬ "lags:".data <:+: e.2.data) ∧
    (∀ e ∈ kAudioUnitType, ¬ "lags:".data <:+: e.2.data) ∧
    (∀ e ∈ kAudioUnitSubType, ¬ "lags:".data <:+: e.2.data) := by
  refine ⟨by decide, by decide, by decide⟩

theorem hexForm_no_lags (c : Nat) : ¬ "lags:".data <:+: (hexForm c).data := by
  intro h
  have hl : 'l' ∈ (hexForm c).data := h.subset (by decide)
  have m := fun (a : Nat) => hexDigitUpper_not_lags (a % 16) (Nat.mod_lt _ (by norm_num))
  have hl' : ∀ a : Nat, 'l' ≠ hexDigitUpper (a % 16) := by
    intro a he
    exact m a (he ▸ (by decide))
  simp only [hexForm, String.data_append, List.mem_append, List.mem_cons, List.mem_nil_iff,
    or_false] at hl
  rcases hl with hl | hl
  · revert hl
    decide
  · rcases hl with hl | hl | hl | hl | hl | hl | hl | hl
    all_goals exact hl' _ hl

theorem quotedForm_no_lags (b0 b1 b2 b3 : Nat) :
    ¬ "lags:".data <:+: (quotedForm b0 b1 b2 b3).data := by
  intro h
  have hq : Char.ofNat 39 ∉ "lags:".data := by decide
  have hd : (quotedForm b0 b1 b2 b3).data =
      [] ++ Char.ofNat 39 ::
        ([Char.ofNat b0, Char.ofNat b1, Char.ofNat b2, Char.ofNat b3] ++ Char.ofNat 39 :: []) := by
    simp only [quotedForm, String.data_append, List.nil_append, List.cons_append]
  rw [hd] at h
  rcases infix_char_split _ _ hq _ _ h with h1 | h1
  · have := List.infix_nil.mp h1
    revert this
    decide
  · rcases infix_char_split _ _ hq _ _ h1 with h2 | h2
    · have hlen := h2.length_le
      simp only [List.length_cons, List.length_nil] at hlen
      exact absurd hlen (by decide)
    · have := List.infix_nil.mp h2
      revert this
      decide

theorem resolved_no_lags (code : Nat) (hc : code < 2 ^ 32) (typemap : OSTypeToStringMap)
    (hlabels : ∀ e ∈ typemap, ¬ "lags:".data <:+: e.2.data) :
    ¬ "lags:".data <:+: (OSTypeToString code typemap).data := by
  unfold OSTypeToString
  cases hf : typemap.find code with
  | some label => exact hlabels (code, label) (mem_of_find_eq_some _ _ _ hf)
  | none =>
    simp only []
    rw [FourCC_repr_eq code hc]
    split
    · exact quotedForm_no_lags _ _ _ _
    · exact hexForm_no_lags _

theorem componentText_eq (acd : AudioComponentDescription) :
    StringFromAudioComponentDescription acd false =
      "Manufacturer: " ++ OSTypeToString acd.componentManufacturer kAudioUnitManufacturer ++
        ", Type: " ++ OSTypeToString acd.componentType kAudioUnitType ++
        ", SubType: " ++ OSTypeToString acd.componentSubType kAudioUnitSubType := by
  unfold StringFromAudioComponentDescription
  have h1 : ", Type: " = ", " ++ "Type: " := by decide
  have h2 : ", SubType: " = ", " ++ "SubType: " := by decide
  rw [h1, h2]
  simp only [Bool.false_eq_true, if_false, String.append_assoc, String.empty_append]

theorem componentText_no_lags (m t s : String)
    (hm : ¬ "lags:".data <:+: m.data) (ht : ¬ "lags:".data <:+: t.data)
    (hs : ¬ "lags:".data <:+: s.data) :
    ¬ "lags:".data <:+:
      ("Manufacturer: " ++ m ++ ", Type: " ++ t ++ ", SubType: " ++ s).data := by
  have hcomma : ',' ∉ "lags:".data := by decide
  have hspace : ' ' ∉ "lags:".data := by decide
  have hd : ("Manufacturer: " ++ m ++ ", Type: " ++ t ++ ", SubType: " ++ s).data =
      "Manufacturer:".data ++ ' ' :: (m.data ++ ',' :: ([] ++ ' ' :: ("Type:".data ++ ' ' ::
        (t.data ++ ',' :: ([] ++ ' ' :: ("SubType:".data ++ ' ' :: s.data)))))) := by
    simp only [String.data_append, List.append_assoc, List.cons_append, List.nil_append]
  rw [hd]
  intro h
  rcases infix_char_split _ _ hspace _ _ h with h | h
  · revert h; decide
  rcases infix_char_split _ _ hcomma _ _ h with h | h
  · exact hm h
  rcases infix_char_split _ _ hspace _ _ h with h | h
  · revert h; decide
  rcases infix_char_split _ _ hspace _ _ h with h | h
  · revert h; decide
  rcases infix_char_split _ _ hcomma _ _ h with h | h
  · exact ht h
  rcases infix_char_split _ _ hspace _ _ h with h | h
  · revert h; decide
  rcases infix_char_split _ _ hspace _ _ h with h | h
  · revert h; decide
  · exact hs h

/-- Claim C12. Component description without flags: with `includeFlags = false`
the text is exactly `Manufacturer: <M>, Type: <T>, SubType: <S>`, the three
codes resolved by `OSTypeToString` against the manufacturer, unit-type and
unit-subtype tables, and it never contains `Flags:`, whatever the three 32-bit
codes are. -/
theorem component_without_flags (acd : AudioComponentDescription) (hwf : acd.WellFormed) :
    StringFromAudioComponentDescription acd false =
      "Manufacturer: " ++ OSTypeToString acd.componentManufacturer kAudioUnitManufacturer ++
        ", Type: " ++ OSTypeToString acd.componentType kAudioUnitType ++
        ", SubType: " ++ OSTypeToString acd.componentSubType kAudioUnitSubType ∧
    ¬ Contains (StringFromAudioComponentDescription acd false) "Flags:" := by
  refine ⟨componentText_eq acd, ?_⟩
  obtain ⟨ht, hs, hm, _, _⟩ := hwf
  intro hc
  unfold Contains at hc
  rw [componentText_eq] at hc
  have hsub : "lags:".data <:+: "Flags:".data := by decide
  exact componentText_no_lags _ _ _
    (resolved_no_lags _ hm _ labels_no_lags.1)
    (resolved_no_lags _ ht _ labels_no_lags.2.1)
    (resolved_no_lags _ hs _ labels_no_lags.2.2) (hsub.trans hc)

theorem component_without_flags_witness :
    StringFromAudioComponentDescription unknownUnit false =
      "Manufacturer: 0x00000007, Type: 'Flag', SubType: 's:  '" ∧
    ¬ Contains (StringFromAudioComponentDescription unknownUnit false) "Flags:" :=
  ⟨(component_without_flags unknownUnit (by decide)).1.trans (by decide),
   (component_without_flags unknownUnit (by decide)).2⟩

/-- Claim C13. Component description with flags: with `includeFlags = true` the
text is the text for `includeFlags = false` followed by
`, Flags: <F>, FlagsMask: <G>`, where `F` and `G` are `0x` and the eight
zero-padded uppercase hexadecimal digits of `componentFlags` and
`componentFlagsMask`; this holds also when all four bytes of a flag word are
printable, as for `0x61626364`. -/
theorem component_with_flags (acd : AudioComponentDescription) (hwf : acd.WellFormed) :
    StringFromAudioComponentDescription acd true =
      StringFromAudioComponentDescription acd false ++ ", Flags: " ++
        hexForm acd.componentFlags ++ ", FlagsMask: " ++ hexForm acd.componentFlagsMask ∧
    (acd.componentFlags = 0x61626364 →
      StringFromAudioComponentDescription acd true =
        StringFromAudioComponentDescription acd false ++ ", Flags: 0x61626364, FlagsMask: " ++
          hexForm acd.componentFlagsMask) := by
  obtain ⟨_, _, _, hf, hk⟩ := hwf
  have hmain : StringFromAudioComponentDescription acd true =
      StringFromAudioComponentDescription acd false ++ ", Flags: " ++
        hexForm acd.componentFlags ++ ", FlagsMask: " ++ hexForm acd.componentFlagsMask := by
    unfold StringFromAudioComponentDescription
    have h1 : ", Flags: " = ", " ++ "Flags: " := by decide
    have h2 : ", FlagsMask: " = ", " ++ "FlagsMask: " := by decide
    rw [h1, h2, ToHex_four _ hf, ToHex_four _ hk]
    simp only [Bool.false_eq_true, if_false, if_true, String.append_assoc]
  refine ⟨hmain, fun h => ?_⟩
  rw [hmain, h]
  have h3 : ", Flags: 0x61626364, FlagsMask: " =
      ", Flags: " ++ (hexForm 0x61626364 ++ ", FlagsMask: ") := by decide
  rw [h3]
  simp only [String.append_assoc]

theorem component_with_flags_witness :
    StringFromAudioComponentDescription pitchUnit true =
      "Manufacturer: Apple, Type: Effect, SubType: Pitch, Flags: 0x61626364, " ++
        "FlagsMask: 0x00000000" ∧
    (FourCC.new pitchUnit.componentFlags).repr = "'abcd'" :=
  ⟨((component_with_flags pitchUnit (by decide)).2 (by decide)).trans (by decide),
   by decide⟩

/-! ## The 16-bit mono example -/

theorem mono_text (d : StreamDescription)
    (hbits : d.mBitsPerChannel = 16) (hfr : fractionBits d = 0) (hbpf : d.mBytesPerFrame = 2)
    (hch : d.mChannelsPerFrame = 1) (h2 : d.mFormatFlags.testBit 2 = true) :
    linearPCMText d = "16-bit" ++
      (if d.mFormatFlags.testBit 1 then " big-endian" else " little-endian") ++ ", " ++
      (if d.mFormatFlags.testBit 0 then "floating-point" else "signed integer") ++ ", " ++
      (if d.mFormatFlags.testBit 5 then "non-interleaved" else "interleaved") := by
  have hn : interleavedChannelCount d = 1 := by
    unfold interleavedChannelCount
    split
    · exact hch
    · rfl
  have hws : sampleWordSizeBytes d = 2 := by
    unfold sampleWordSizeBytes
    rw [hn, hbpf]
    decide
  have c1 : 1 < sampleWordSizeBytes d ∧ sampleWordSizeBytes d < 2147483648 := by
    rw [hws]; decide
  have c0 : ¬ (0 < sampleWordSizeBytes d ∧ sampleWordSizeBytes d < 2147483648 ∧
      packednessSignificant d) := by
    rintro ⟨_, _, _, hne⟩
    rw [hws, hbits] at hne
    exact hne (by decide)
  unfold linearPCMText
  rw [if_pos c1, if_neg c0]
  unfold bitDepthText endianClause sampleTypeClause interleaveClause
  rw [if_neg (by omega), hbits, h2]
  have h16 : showUnsigned 16 ++ "-bit" = "16-bit" := by decide
  rw [h16]
  simp only [if_true, String.append_assoc, String.empty_append]

/-- Claim C14, as amended. Spec example, 16-bit mono PCM: for a well-formed
linear-PCM descriptor with `bitsPerChannel = 16`, no fraction bits,
`bytesPerFrame = 2`, `channelsPerFrame = 1`, the signed-integer and packed bits
set and the non-interleaved bit clear, the text after the header is `16-bit`,
the endianness clause, `, `, the sample-type clause and `, interleaved`; it
contains `16-bit` and `interleaved`, contains neither `packed in` nor
`unpacked in`, and contains `signed integer` exactly when the float bit `0x1` is
clear. -/
theorem mono_example (showDouble : Nat → String) (d : StreamDescription)
    (hwf : d.WellFormed) (hpcm : d.mFormatID = kAudioFormatLinearPCM)
    (hbits : d.mBitsPerChannel = 16) (hfr : (d.mFormatFlags &&& 0x1F80) >>> 7 = 0)
    (hbpf : d.mBytesPerFrame = 2) (hch : d.mChannelsPerFrame = 1)
    (h2 : d.mFormatFlags.testBit 2 = true) (_h3 : d.mFormatFlags.testBit 3 = true)
    (h5 : d.mFormatFlags.testBit 5 = false) :
    d.ToString showDouble = some (formatHeader showDouble d ++ linearPCMText d) ∧
    linearPCMText d = "16-bit" ++
      (if d.mFormatFlags.testBit 1 then " big-endian" else " little-endian") ++ ", " ++
      (if d.mFormatFlags.testBit 0 then "floating-point" else "signed integer") ++
      ", interleaved" ∧
    Contains (linearPCMText d) "16-bit" ∧
    Contains (linearPCMText d) "interleaved" ∧
    ¬ Contains (linearPCMText d) "packed in" ∧
    ¬ Contains (linearPCMText d) "unpacked in" ∧
    (Contains (linearPCMText d) "signed integer" ↔ d.mFormatFlags.testBit 0 = false) := by
  have ht := mono_text d hbits hfr hbpf hch h2
  rw [h5] at ht
  have ht' : linearPCMText d = "16-bit" ++
      (if d.mFormatFlags.testBit 1 then " big-endian" else " little-endian") ++ ", " ++
      (if d.mFormatFlags.testBit 0 then "floating-point" else "signed integer") ++
      ", interleaved" := by
    rw [ht]
    have hi : ", interleaved" = ", " ++ "interleaved" := by decide
    rw [hi]
    simp only [Bool.false_eq_true, if_false, String.append_assoc]
  refine ⟨ToString_linearPCM showDouble d hwf hpcm, ht', ?_⟩
  rw [ht']
  cases d.mFormatFlags.testBit 0 <;> cases d.mFormatFlags.testBit 1 <;>
    simp only [if_true, if_false, Bool.false_eq_true] <;> decide

theorem mono_example_witness :
    monoInput.ToString showRate44100 =
      some "1 Ch @ 44100 Hz, Format: LinearPCM, 16-bit little-endian, signed integer, interleaved" ∧
    Contains (linearPCMText monoInput) "signed integer" :=
  ⟨((mono_example showRate44100 monoInput (by decide) (by decide) (by decide) (by decide)
      (by decide) (by decide) (by decide) (by decide) (by decide)).1).trans (by decide),
   (mono_example showRate44100 monoInput (by decide) (by decide) (by decide) (by decide)
      (by decide) (by decide) (by decide) (by decide) (by decide)).2.2.2.2.2.2.mpr
      (by decide)⟩

set_option maxRecDepth 4000 in
theorem monoFloatInput_no_signed :
    ¬ Contains
      "1 Ch @ 44100 Hz, Format: LinearPCM, 16-bit little-endian, floating-point, interleaved"
      "signed integer" := by
  decide

/-- Claim C14, counterexample. The descriptor of the example with the float bit
set besides the signed-integer and packed bits is described as
`16-bit little-endian, floating-point, interleaved`, which does not contain
`signed integer`. -/
theorem mono_example_counterexample :
    monoFloatInput.WellFormed ∧
    monoFloatInput.mFormatID = kAudioFormatLinearPCM ∧
    monoFloatInput.mBitsPerChannel = 16 ∧
    (monoFloatInput.mFormatFlags &&& 0x1F80) >>> 7 = 0 ∧
    monoFloatInput.mBytesPerFrame = 2 ∧ monoFloatInput.mChannelsPerFrame = 1 ∧
    monoFloatInput.mFormatFlags &&& 0x4 ≠ 0 ∧ monoFloatInput.mFormatFlags &&& 0x8 ≠ 0 ∧
    monoFloatInput.mFormatFlags &&& 0x20 = 0 ∧
    monoFloatInput.ToString showRate44100 = some
      "1 Ch @ 44100 Hz, Format: LinearPCM, 16-bit little-endian, floating-point, interleaved" ∧
    ¬ (∃ s, monoFloatInput.ToString showRate44100 = some s ∧ Contains s "signed integer") := by
  have hs : monoFloatInput.ToString showRate44100 = some
      "1 Ch @ 44100 Hz, Format: LinearPCM, 16-bit little-endian, floating-point, interleaved" := by
    decide
  refine ⟨by decide, by decide, by decide, by decide, by decide, by decide, by decide,
    by decide, by decide, hs, ?_⟩
  rintro ⟨s, h, hc⟩
  rw [hs] at h
  cases h
  exact monoFloatInput_no_signed hc

/-! ## Packedness and alignment -/

/-- Claim C15, as amended. Glossary definition of packedness: for a linear-PCM
descriptor `PackednessIsSignificant` is true exactly when the container size in
bits, `(sampleWordSizeBytes * 8) mod 2 ^ 32`, differs from `bitsPerChannel`; for
word sizes below `2 ^ 29` that is when `sampleWordSizeBytes * 8` exceeds
`bitsPerChannel` or is smaller than it. -/
theorem packedness_glossary (d : StreamDescription)
    (hpcm : d.mFormatID = kAudioFormatLinearPCM) :
    d.SampleWordSize = some (sampleWordSizeBytes d) ∧
    (d.PackednessIsSignificant = some true ↔
      (sampleWordSizeBytes d * 8) % 4294967296 ≠ d.mBitsPerChannel) ∧
    (sampleWordSizeBytes d < 536870912 →
      (d.PackednessIsSignificant = some true ↔
        (d.mBitsPerChannel < sampleWordSizeBytes d * 8 ∨
          sampleWordSizeBytes d * 8 < d.mBitsPerChannel))) := by
  have hiff : d.PackednessIsSignificant = some true ↔
      (sampleWordSizeBytes d * 8) % 4294967296 ≠ d.mBitsPerChannel := by
    rw [PackednessIsSignificant_eq]
    simp [packednessSignificant, hpcm]
  refine ⟨SampleWordSize_eq d, hiff, fun hlt => ?_⟩
  rw [hiff, Nat.mod_eq_of_lt (by omega)]
  omega

theorem packedness_glossary_witness :
    (cdInput.PackednessIsSignificant = some true ↔
      (sampleWordSizeBytes cdInput * 8) % 4294967296 ≠ cdInput.mBitsPerChannel) ∧
    narrowContainerInput.PackednessIsSignificant = some true :=
  ⟨(packedness_glossary cdInput (by decide)).2.1,
   ((packedness_glossary narrowContainerInput (by decide)).2.2 (by decide)).mpr
      (Or.inr (by decide))⟩

/-- Claim C15, counterexample. With 24 bits per channel in a two-byte word the
container size `2 * 8 = 16` does not exceed `bitsPerChannel`, yet
`PackednessIsSignificant` is true. -/
theorem packedness_glossary_counterexample :
    narrowContainerInput.WellFormed ∧
    narrowContainerInput.mFormatID = kAudioFormatLinearPCM ∧
    narrowContainerInput.SampleWordSize = some 2 ∧
    ¬ (narrowContainerInput.mBitsPerChannel < 2 * 8) ∧
    narrowContainerInput.PackednessIsSignificant = some true ∧
    ¬ (narrowContainerInput.PackednessIsSignificant = some true ↔
      ∃ ws, narrowContainerInput.SampleWordSize = some ws ∧
        narrowContainerInput.mBitsPerChannel < ws * 8) := by
  refine ⟨by decide, by decide, by decide, by decide, by decide, ?_⟩
  intro h
  obtain ⟨ws, hws, hlt⟩ := h.mp (by decide)
  have h2 : narrowContainerInput.SampleWordSize = some 2 := by decide
  rw [h2] at hws
  cases hws
  revert hlt
  decide

theorem noAligned_runs (d : StreamDescription)
    (h0 : ¬ (0 < sampleWordSizeBytes d ∧ sampleWordSizeBytes d < 2147483648 ∧
      packednessSignificant d)) :
    noRunContains "-aligned".data (linearPCMSegs d) = true := by
  unfold linearPCMSegs depthSegs sampleTypeClause endianClause interleaveClause
  simp only [if_neg h0]
  generalize d.mFormatFlags.testBit 0 = b0
  generalize d.mFormatFlags.testBit 1 = b1
  generalize d.mFormatFlags.testBit 2 = b2
  generalize d.mFormatFlags.testBit 5 = b5
  by_cases hfr : 0 < fractionBits d <;>
  by_cases h1 : 1 < sampleWordSizeBytes d ∧ sampleWordSizeBytes d < 2147483648 <;>
  (first | simp only [if_neg hfr] | simp only [if_pos hfr]) <;>
  (first | simp only [if_neg h1] | simp only [if_pos h1]) <;>
  cases b0 <;> cases b1 <;> cases b2 <;> cases b5 <;> rfl

theorem noEmptyClause_runs (d : StreamDescription) :
    noRunContains ", , ".data (linearPCMSegs d) = true := by
  unfold linearPCMSegs depthSegs sampleTypeClause endianClause alignClause interleaveClause
  generalize d.mFormatFlags.testBit 0 = b0
  generalize d.mFormatFlags.testBit 1 = b1
  generalize d.mFormatFlags.testBit 2 = b2
  generalize d.mFormatFlags.testBit 3 = b3
  generalize d.mFormatFlags.testBit 4 = b4
  generalize d.mFormatFlags.testBit 5 = b5
  by_cases hfr : 0 < fractionBits d <;>
  by_cases h1 : 1 < sampleWordSizeBytes d ∧ sampleWordSizeBytes d < 2147483648 <;>
  by_cases h0 : 0 < sampleWordSizeBytes d ∧ sampleWordSizeBytes d < 2147483648 ∧
      packednessSignificant d <;>
  (first | simp only [if_neg hfr] | simp only [if_pos hfr]) <;>
  (first | simp only [if_neg h1] | simp only [if_pos h1]) <;>
  (first | simp only [if_neg h0] | simp only [if_pos h0]) <;>
  cases b0 <;> cases b1 <;> cases b2 <;> cases b3 <;> cases b4 <;> cases b5 <;> rfl

theorem digitFree_aligned : ∀ c ∈ "-aligned".data, c.isDigit = false := by decide

theorem digitFree_emptyClause : ∀ c ∈ ", , ".data, c.isDigit = false := by decide

/-- Claim C16. Alignment clause and separators: for a well-formed linear-PCM
descriptor `AlignmentIsSignificant` equals `PackednessIsSignificant` (a
`bitsPerChannel` equal to the word size in bits is a multiple of 8); the
alignment clause (`, high-aligned` for a set bit `0x10`, otherwise
`, low-aligned`) stands directly after the packed/unpacked clause when that
clause is printed and `-aligned` does not occur otherwise; the text after the
header never contains `, , `. -/
theorem alignment_clause (showDouble : Nat → String) (d : StreamDescription)
    (hwf : d.WellFormed) (hpcm : d.mFormatID = kAudioFormatLinearPCM) :
    d.AlignmentIsSignificant = d.PackednessIsSignificant ∧
    ((sampleWordSizeBytes d * 8) % 4294967296 = d.mBitsPerChannel →
      d.mBitsPerChannel % 8 = 0) ∧
    d.ToString showDouble = some (formatHeader showDouble d ++ linearPCMText d) ∧
    ((0 < sampleWordSizeBytes d ∧ sampleWordSizeBytes d < 2147483648 ∧
        packednessSignificant d) →
      ∃ before : String, linearPCMText d = before ++ "packed in " ++
        showUnsigned (sampleWordSizeBytes d) ++ " bytes" ++
        (if d.mFormatFlags.testBit 4 then ", high-aligned" else ", low-aligned") ++ ", " ++
        (if d.mFormatFlags.testBit 5 then "non-interleaved" else "interleaved")) ∧
    (Contains (linearPCMText d) "-aligned" ↔
      (0 < sampleWordSizeBytes d ∧ sampleWordSizeBytes d < 2147483648 ∧
        packednessSignificant d)) ∧
    ¬ Contains (linearPCMText d) ", , " := by
  have hpos : (0 < sampleWordSizeBytes d ∧ sampleWordSizeBytes d < 2147483648 ∧
        packednessSignificant d) →
      linearPCMText d = (bitDepthText d ++ "-bit" ++
        (if 1 < sampleWordSizeBytes d ∧ sampleWordSizeBytes d < 2147483648
          then endianClause d ++ ", " else "") ++ sampleTypeClause d ++ ", " ++
        (if d.mFormatFlags.testBit 3 then "" else "un")) ++ "packed in " ++
        showUnsigned (sampleWordSizeBytes d) ++ " bytes" ++
        (if d.mFormatFlags.testBit 4 then ", high-aligned" else ", low-aligned") ++ ", " ++
        (if d.mFormatFlags.testBit 5 then "non-interleaved" else "interleaved") := by
    intro h
    unfold linearPCMText packedClause alignClause interleaveClause
    rw [if_pos h]
    simp only [String.append_assoc]
  have halign : "-aligned".data <:+:
      (if d.mFormatFlags.testBit 4 then ", high-aligned" else ", low-aligned").data := by
    cases d.mFormatFlags.testBit 4 <;> decide
  refine ⟨?_, ?_, ToString_linearPCM showDouble d hwf hpcm, fun h => ⟨_, hpos h⟩, ⟨?_, ?_⟩, ?_⟩
  · rw [AlignmentIsSignificant_eq d hpcm, PackednessIsSignificant_eq]
  · intro h
    omega
  · intro hc
    by_contra h
    unfold Contains at hc
    rw [linearPCMText_data] at hc
    exact not_infix_of_noRunContains _ digitFree_aligned _ (noAligned_runs d h) hc
  · intro h
    unfold Contains
    rw [hpos h]
    refine halign.trans ⟨((bitDepthText d ++ "-bit" ++
        (if 1 < sampleWordSizeBytes d ∧ sampleWordSizeBytes d < 2147483648
          then endianClause d ++ ", " else "") ++ sampleTypeClause d ++ ", " ++
        (if d.mFormatFlags.testBit 3 then "" else "un")) ++ "packed in " ++
        showUnsigned (sampleWordSizeBytes d) ++ " bytes").data,
      (", " ++ (if d.mFormatFlags.testBit 5 then "non-interleaved" else "interleaved")).data,
      ?_⟩
    simp only [String.data_append, List.append_assoc]
  · intro hc
    unfold Contains at hc
    rw [linearPCMText_data] at hc
    exact not_infix_of_noRunContains _ digitFree_emptyClause _ (noEmptyClause_runs d) hc

theorem alignment_clause_witness :
    twentyBitInput.AlignmentIsSignificant = twentyBitInput.PackednessIsSignificant ∧
    Contains (linearPCMText twentyBitInput) "-aligned" ∧
    ¬ Contains (linearPCMText cdInput) "-aligned" ∧
    ¬ Contains (linearPCMText twentyBitInput) ", , " :=
  ⟨(alignment_clause showRate44100 twentyBitInput (by decide) (by decide)).1,
   (alignment_clause showRate44100 twentyBitInput (by decide) (by decide)).2.2.2.2.1.mpr
     (by decide),
   fun h => absurd
     ((alignment_clause showRate44100 cdInput (by decide) (by decide)).2.2.2.2.1.mp h)
     (by decide),
   (alignment_clause showRate44100 twentyBitInput (by decide) (by decide)).2.2.2.2.2⟩

/-! ## The wrapped integer part -/

/-- Claim C17. Fixed-point integer part wraps: for a well-formed linear-PCM
descriptor whose `fractionBits` is greater than `bitsPerChannel` the text after
the header starts with `<bitsPerChannel - fractionBits + 4294967296>.`, the
unsigned 32-bit value of the difference: a number of at least `4294967233`,
written with digits only, so neither negative nor `0`. -/
theorem fraction_wrap (showDouble : Nat → String) (d : StreamDescription)
    (hwf : d.WellFormed) (hpcm : d.mFormatID = kAudioFormatLinearPCM)
    (hlt : d.mBitsPerChannel < (d.mFormatFlags &&& 0x1F80) >>> 7) :
    (∃ rest : String, d.ToString showDouble = some (formatHeader showDouble d ++
      showUnsigned (d.mBitsPerChannel + 4294967296 - (d.mFormatFlags &&& 0x1F80) >>> 7) ++
      "." ++ showUnsigned ((d.mFormatFlags &&& 0x1F80) >>> 7) ++ "-bit" ++ rest)) ∧
    ((d.mBitsPerChannel : Int) - (((d.mFormatFlags &&& 0x1F80) >>> 7 : Nat) : Int)) % 4294967296 =
      ((d.mBitsPerChannel + 4294967296 - (d.mFormatFlags &&& 0x1F80) >>> 7 : Nat) : Int) ∧
    4294967233 ≤ d.mBitsPerChannel + 4294967296 - (d.mFormatFlags &&& 0x1F80) >>> 7 ∧
    d.mBitsPerChannel + 4294967296 - (d.mFormatFlags &&& 0x1F80) >>> 7 < 4294967296 ∧
    (∀ c ∈ (showUnsigned
        (d.mBitsPerChannel + 4294967296 - (d.mFormatFlags &&& 0x1F80) >>> 7)).data,
      c.isDigit = true) := by
  have hfl : fractionBits d ≤ 63 := fractionBits_le d
  have hfd : (d.mFormatFlags &&& 0x1F80) >>> 7 = fractionBits d := rfl
  rw [hfd] at hlt ⊢
  refine ⟨?_, by omega, by omega, by omega, (repr_digits _).1⟩
  refine ⟨(if 1 < sampleWordSizeBytes d ∧ sampleWordSizeBytes d < 2147483648
      then endianClause d ++ ", " else "") ++ sampleTypeClause d ++ ", " ++
    (if 0 < sampleWordSizeBytes d ∧ sampleWordSizeBytes d < 2147483648 ∧
        packednessSignificant d
      then packedClause d ++ alignClause d ++ ", " else "") ++ interleaveClause d, ?_⟩
  rw [ToString_linearPCM showDouble d hwf hpcm]
  unfold linearPCMText bitDepthText
  rw [if_pos (by omega), Nat.mod_eq_of_lt (by omega)]
  simp only [String.append_assoc]

theorem fraction_wrap_witness :
    ∃ rest : String, zeroBitsInput.ToString showRate44100 =
      some ("1 Ch @ 44100 Hz, Format: LinearPCM, " ++ "4294967295.1-bit" ++ rest) := by
  obtain ⟨rest, h⟩ :=
    (fraction_wrap showRate44100 zeroBitsInput (by decide) (by decide) (by decide)).1
  refine ⟨rest, h.trans ?_⟩
  have hh : formatHeader showRate44100 zeroBitsInput ++
      showUnsigned (zeroBitsInput.mBitsPerChannel + 4294967296 -
        (zeroBitsInput.mFormatFlags &&& 0x1F80) >>> 7) ++ "." ++
      showUnsigned ((zeroBitsInput.mFormatFlags &&& 0x1F80) >>> 7) ++ "-bit" =
      "1 Ch @ 44100 Hz, Format: LinearPCM, " ++ "4294967295.1-bit" := by decide
  rw [hh]

end CoreAudioDebugging
